import Mathlib

/-!
Verification development for mypy's type-variable constraint inference
(`mypy/constraints.py`).

The source file is embedded shallowly:

* `Ty` models the external type representation (`mypy.types`), a closed
  tagged union; only the fields that `constraints.py` reads are kept.
* `Oracles` bundles the external collaborators that the file consumes but
  does not own (the subtype oracle `mypy.subtypes`, the type algebra in
  `mypy.typeops` / `mypy.maptype` / `mypy.erasetype`, ...).  Each field is a
  function parameter, so theorems quantify over every possible behaviour of
  those collaborators.
* The two mutable guard stacks (`TypeState.inferring` and the per-protocol
  `TypeInfo.inferring` lists) become an explicit state `St`; Python
  exceptions (`assert False`, `NotImplementedError`, `RuntimeError`) become
  an exception monad.  The monad is `M α = St → Except Err α × St`: state
  mutations survive a raised exception, exactly as in Python.
* General recursion is embedded with an explicit fuel index: `engine O n`
  is the family of mutually recursive procedures of the file, truncated at
  recursion depth `n`; running out of fuel raises the artificial error
  `Err.fuelOut`.
-/

/-- Direction of a constraint: `SUBTYPE_OF = 0` / `SUPERTYPE_OF = 1`. -/
inductive Dir where
  | sub
  | super
deriving DecidableEq, Repr

/-- `neg_op`: map SubtypeOf to SupertypeOf and vice versa.  The Python
`ValueError` branch for other ints is unreachable with a two-value type. -/
def neg_op : Dir → Dir
  | .sub => .super
  | .super => .sub

/-- The provenance tag of an `AnyType` (`TypeOfAny`); only the tags that
`constraints.py` mentions are distinguished, all others are `special`. -/
inductive TypeOfAnyTag where
  | suggestionEngine
  | implementationArtifact
  | fromAnotherAny
  | special
deriving DecidableEq, Repr

/-- Variance of a definition-site type variable (`mypy.nodes`). -/
inductive Variance where
  | invariant
  | covariant
  | contravariant
deriving DecidableEq, Repr

/-- Argument kinds of callables (`mypy.nodes.ArgKind`). -/
inductive ArgKind where
  | pos
  | opt
  | star
  | named
  | star2
  | namedOpt
deriving DecidableEq, Repr

/-- Errors: Python exceptions raised by `constraints.py`, plus the
artificial `fuelOut` marking fuel exhaustion of the embedding. -/
inductive Err where
  | fuelOut
  | assertFail
  | notImplemented
  | runtimeErr
deriving DecidableEq, Repr

/-- The kind (and, for plain variables, the variance) of a definition-site
type variable of a class (`TypeInfo.defn.type_vars` entries); the nominal
inference loops only inspect the kind and the variance. -/
inductive TVKind where
  | plain (variance : Variance)
  | pspec
  | tvtuple
deriving DecidableEq, Repr

/-- The external type representation (`mypy.types`), restricted to the
fields read by `constraints.py`.  A class instance carries the `fullname`
of its `TypeInfo`; the remaining `TypeInfo` data lives in
`Oracles.classInfo`.  A recursive type alias cannot be a finite tree, so
`typeAlias` carries an `isRecursive` flag consulted by
`hasRecursiveTypes`, together with (an unrolling of) its target consulted
by `getProper`. -/
inductive Ty where
  | anyT (tag : TypeOfAnyTag)
  | noneT
  | uninhabited
  | erasedT
  | deleted
  | unbound
  | literal (fallback : Ty)
  | typeVar (id : Nat) (values : List Ty) (upperBound : Ty)
  | paramSpec (id : Nat) (pfxTypes : List Ty) (pfxKinds : List ArgKind)
      (pfxNames : List (Option String)) (upperBound : Ty)
  | typeVarTuple (id : Nat) (upperBound : Ty)
  | unpack (inner : Ty)
  | params (argTypes : List Ty) (argKinds : List ArgKind) (argNames : List (Option String))
  | inst (name : String) (args : List Ty)
  | callable (argTypes : List Ty) (argKinds : List ArgKind) (argNames : List (Option String))
      (retType : Ty) (isEllipsisArgs : Bool) (isTypeObj : Bool) (fromConcat : Bool)
      (typeGuard : Option Ty) (fallback : Ty)
  | tup (items : List Ty) (partialFallback : Ty)
  | typedDict (fields : List (String × Ty)) (fallback : Ty)
  | unionT (items : List Ty)
  | overloaded (items : List Ty)
  | typeType (item : Ty)
  | typeList (items : List Ty)
  | typeAlias (isRecursive : Bool) (target : Ty)
  | partialT

mutual

/-- Structural equality of types, modelling `==` on `mypy.types.Type`
objects as used by `constraints.py` (guard-stack membership and
`filtered_options != options`). -/
def Ty.beq : Ty → Ty → Bool
  | .anyT t1, .anyT t2 => t1 == t2
  | .noneT, .noneT => true
  | .uninhabited, .uninhabited => true
  | .erasedT, .erasedT => true
  | .deleted, .deleted => true
  | .unbound, .unbound => true
  | .literal f1, .literal f2 => f1.beq f2
  | .typeVar i1 v1 u1, .typeVar i2 v2 u2 => i1 == i2 && Ty.beqList v1 v2 && u1.beq u2
  | .paramSpec i1 t1 k1 n1 u1, .paramSpec i2 t2 k2 n2 u2 =>
      i1 == i2 && Ty.beqList t1 t2 && k1 == k2 && n1 == n2 && u1.beq u2
  | .typeVarTuple i1 u1, .typeVarTuple i2 u2 => i1 == i2 && u1.beq u2
  | .unpack t1, .unpack t2 => t1.beq t2
  | .params t1 k1 n1, .params t2 k2 n2 => Ty.beqList t1 t2 && k1 == k2 && n1 == n2
  | .inst n1 a1, .inst n2 a2 => n1 == n2 && Ty.beqList a1 a2
  | .callable t1 k1 n1 r1 e1 o1 c1 g1 f1, .callable t2 k2 n2 r2 e2 o2 c2 g2 f2 =>
      Ty.beqList t1 t2 && k1 == k2 && n1 == n2 && r1.beq r2 && e1 == e2 && o1 == o2 &&
      c1 == c2 && Ty.beqOpt g1 g2 && f1.beq f2
  | .tup i1 f1, .tup i2 f2 => Ty.beqList i1 i2 && f1.beq f2
  | .typedDict d1 f1, .typedDict d2 f2 => Ty.beqFields d1 d2 && f1.beq f2
  | .unionT i1, .unionT i2 => Ty.beqList i1 i2
  | .overloaded i1, .overloaded i2 => Ty.beqList i1 i2
  | .typeType t1, .typeType t2 => t1.beq t2
  | .typeList i1, .typeList i2 => Ty.beqList i1 i2
  | .typeAlias r1 t1, .typeAlias r2 t2 => r1 == r2 && t1.beq t2
  | .partialT, .partialT => true
  | _, _ => false
termination_by structural t => t

def Ty.beqList : List Ty → List Ty → Bool
  | [], [] => true
  | t :: ts, u :: us => t.beq u && Ty.beqList ts us
  | _, _ => false
termination_by structural ts => ts

def Ty.beqOpt : Option Ty → Option Ty → Bool
  | none, none => true
  | some t, some u => t.beq u
  | _, _ => false
termination_by structural o => o

def Ty.beqFields : List (String × Ty) → List (String × Ty) → Bool
  | [], [] => true
  | (n, t) :: ts, (m, u) :: us => n == m && t.beq u && Ty.beqFields ts us
  | _, _ => false
termination_by structural fs => fs

end

instance : BEq Ty := ⟨Ty.beq⟩

/-- `get_proper_type`: expand type aliases (external, `mypy.types`). -/
def getProper : Ty → Ty
  | .typeAlias _ t => getProper t
  | t => t

mutual

/-- `has_type_vars` (external, `mypy.types`): does the type contain a
type-variable-like leaf anywhere? -/
def hasTypeVars : Ty → Bool
  | .typeVar _ _ _ => true
  | .paramSpec _ _ _ _ _ => true
  | .typeVarTuple _ _ => true
  | .anyT _ => false
  | .noneT => false
  | .uninhabited => false
  | .erasedT => false
  | .deleted => false
  | .unbound => false
  | .literal f => hasTypeVars f
  | .unpack t => hasTypeVars t
  | .params t _ _ => hasTypeVarsList t
  | .inst _ a => hasTypeVarsList a
  | .callable t _ _ r _ _ _ _ f =>
      hasTypeVarsList t || hasTypeVars r || hasTypeVars f
  | .tup i f => hasTypeVarsList i || hasTypeVars f
  | .typedDict d f => hasTypeVarsFields d || hasTypeVars f
  | .unionT i => hasTypeVarsList i
  | .overloaded i => hasTypeVarsList i
  | .typeType t => hasTypeVars t
  | .typeList i => hasTypeVarsList i
  | .typeAlias _ t => hasTypeVars t
  | .partialT => false
termination_by structural t => t

def hasTypeVarsList : List Ty → Bool
  | [] => false
  | t :: ts => hasTypeVars t || hasTypeVarsList ts
termination_by structural ts => ts

def hasTypeVarsFields : List (String × Ty) → Bool
  | [] => false
  | (_, t) :: ts => hasTypeVars t || hasTypeVarsFields ts
termination_by structural ts => ts

end

mutual

/-- `has_recursive_types` (external, `mypy.types`): does the type contain
a recursive type alias anywhere? -/
def hasRecursiveTypes : Ty → Bool
  | .typeAlias r t => r || hasRecursiveTypes t
  | .literal f => hasRecursiveTypes f
  | .typeVar _ v u => hasRecursiveTypesList v || hasRecursiveTypes u
  | .paramSpec _ t _ _ u => hasRecursiveTypesList t || hasRecursiveTypes u
  | .typeVarTuple _ u => hasRecursiveTypes u
  | .unpack t => hasRecursiveTypes t
  | .params t _ _ => hasRecursiveTypesList t
  | .inst _ a => hasRecursiveTypesList a
  | .callable t _ _ r _ _ _ _ f =>
      hasRecursiveTypesList t || hasRecursiveTypes r || hasRecursiveTypes f
  | .tup i f => hasRecursiveTypesList i || hasRecursiveTypes f
  | .typedDict d f => hasRecursiveTypesFields d || hasRecursiveTypes f
  | .unionT i => hasRecursiveTypesList i
  | .overloaded i => hasRecursiveTypesList i
  | .typeType t => hasRecursiveTypes t
  | .typeList i => hasRecursiveTypesList i
  | .anyT _ => false
  | .noneT => false
  | .uninhabited => false
  | .erasedT => false
  | .deleted => false
  | .unbound => false
  | .partialT => false
termination_by structural t => t

def hasRecursiveTypesList : List Ty → Bool
  | [] => false
  | t :: ts => hasRecursiveTypes t || hasRecursiveTypesList ts
termination_by structural ts => ts

def hasRecursiveTypesFields : List (String × Ty) → Bool
  | [] => false
  | (_, t) :: ts => hasRecursiveTypes t || hasRecursiveTypesFields ts
termination_by structural ts => ts

end

mutual

/-- The query of `CompleteTypeVisitor` (`TypeQuery(all)` overriding
`visit_uninhabited_type` to `False`): a type is complete iff no component
is the uninhabited type. -/
def isCompleteType : Ty → Bool
  | .uninhabited => false
  | .anyT _ => true
  | .noneT => true
  | .erasedT => true
  | .deleted => true
  | .unbound => true
  | .partialT => true
  | .literal f => isCompleteType f
  | .typeVar _ v u => isCompleteTypeList v && isCompleteType u
  | .paramSpec _ t _ _ u => isCompleteTypeList t && isCompleteType u
  | .typeVarTuple _ u => isCompleteType u
  | .unpack t => isCompleteType t
  | .params t _ _ => isCompleteTypeList t
  | .inst _ a => isCompleteTypeList a
  | .callable t _ _ r _ _ _ _ f =>
      isCompleteTypeList t && isCompleteType r && isCompleteType f
  | .tup i f => isCompleteTypeList i && isCompleteType f
  | .typedDict d f => isCompleteTypeFields d && isCompleteType f
  | .unionT i => isCompleteTypeList i
  | .overloaded i => isCompleteTypeList i
  | .typeType t => isCompleteType t
  | .typeList i => isCompleteTypeList i
  | .typeAlias _ t => isCompleteType t
termination_by structural t => t

def isCompleteTypeList : List Ty → Bool
  | [] => true
  | t :: ts => isCompleteType t && isCompleteTypeList ts
termination_by structural ts => ts

def isCompleteTypeFields : List (String × Ty) → Bool
  | [] => true
  | (_, t) :: ts => isCompleteType t && isCompleteTypeFields ts
termination_by structural ts => ts

end

/-- `simplify_away_incomplete_types`: keep the complete items, unless that
would keep nothing. -/
def simplifyAwayIncompleteTypes (types : List Ty) : List Ty :=
  let complete := types.filter isCompleteType
  if complete.isEmpty then types else complete

/-- `UnionType.make_union` (external, `mypy.types`). -/
def mkUnion : List Ty → Ty
  | [] => .uninhabited
  | [t] => t
  | ts => .unionT ts

/-- `is_union_with_any` (external, `mypy.types`): proper type is a union
with an `Any` item. -/
def isUnionWithAny (t : Ty) : Bool :=
  match getProper t with
  | .unionT items => items.any (fun i => match getProper i with | .anyT _ => true | _ => false)
  | _ => false

/-- The `.id` of a `TypeVarLikeType` (opaque; here a `Nat`). -/
def Ty.varId : Ty → Nat
  | .typeVar i _ _ => i
  | .paramSpec i _ _ _ _ => i
  | .typeVarTuple i _ => i
  | _ => 0

/-- The `.upper_bound` of a `TypeVarLikeType`. -/
def Ty.upperBound : Ty → Ty
  | .typeVar _ _ u => u
  | .paramSpec _ _ _ _ u => u
  | .typeVarTuple _ u => u
  | _ => .anyT .special

/-- `split_with_prefix_and_suffix` (external, `mypy.typevartuples`). -/
def splitPfxSfx (args : List Ty) (p s : Nat) : List Ty × List Ty × List Ty :=
  (args.take p, (args.drop p).take (args.length - p - s), args.drop (args.length - s))

/-- `extract_unpack` (external, `mypy.typevartuples`): the proper inner
type of a sole unpack item. -/
def extractUnpack : List Ty → Option Ty
  | [.unpack inner] => some (getProper inner)
  | _ => none

/-- `find_unpack_in_list` (external, `mypy.typevartuples`): index and item
of the first unpack item. -/
def firstUnpack : List Ty → Option (Nat × Ty)
  | [] => none
  | t :: ts =>
    match t with
    | .unpack inner => some (0, .unpack inner)
    | _ => (firstUnpack ts).map (fun p => (p.1 + 1, p.2))

/-- `CallableType.param_spec()` (external, `mypy.types`): the trailing
`*args: P.args, **kwargs: P.kwargs` parameter-specification variable, with
the leading parameters attached as its prefix. -/
def paramSpecOf : Ty → Option Ty
  | .callable argTypes argKinds argNames _ _ _ _ _ _ =>
    if argKinds.length ≥ 2 && argKinds.drop (argKinds.length - 2) == [.star, .star2] then
      match argTypes.drop (argTypes.length - 2) with
      | [.paramSpec i _ _ _ u, _] =>
          some (.paramSpec i (argTypes.take (argTypes.length - 2))
            (argKinds.take (argKinds.length - 2))
            (argNames.take (argNames.length - 2)) u)
      | _ => none
    else none
  | _ => none

/-- `copy_modified` dropping the first `k` parameters of a callable or of
a bare parameter list (suffix computation of the ParamSpec branches). -/
def dropArgsPfx (k : Nat) : Ty → Ty
  | .callable t ks ns r e o c g f => .callable (t.drop k) (ks.drop k) (ns.drop k) r e o c g f
  | .params t ks ns => .params (t.drop k) (ks.drop k) (ns.drop k)
  | t => t

/-- `callable_with_ellipsis` (external, `mypy.types`): `Callable[..., ret]`
with the given fallback. -/
def mkEllipsisCallable (anyArg ret fb : Ty) : Ty :=
  .callable [anyArg, anyArg] [.star, .star2] [none, none] ret true false false none fb

/-- `Overloaded.fallback` (`items[0].fallback`). -/
def overloadFallback (t : Ty) : Ty :=
  match t with
  | .overloaded (c :: _) =>
    match c with
    | .callable _ _ _ _ _ _ _ _ f => f
    | _ => t
  | _ => t

/-- `TUPLE_LIKE_INSTANCE_NAMES` (external, `mypy.types`). -/
def tupleLikeNames : List String :=
  ["builtins.tuple", "typing.Iterable", "typing.Container", "typing.Sequence",
   "typing.Reversible"]

/-- `zip3`, written out for the nominal-inference loops. -/
def zip3 : List α → List β → List γ → List (α × β × γ)
  | a :: as_, b :: bs, c :: cs => (a, b, c) :: zip3 as_ bs cs
  | _, _, _ => []

/-- The parts of a class's `TypeInfo` (external, `mypy.nodes`) read by
`constraints.py`.  `mro` backs `has_base` (a class's mro contains its own
fullname); `tvtPfx`/`tvtSfx` are `type_var_tuple_prefix`/`..._suffix`. -/
structure ClassInfo where
  mro : List String := []
  isProtocol : Bool := false
  protocolMembers : List String := []
  typeVarDefs : List TVKind := []
  isNamedTuple : Bool := false
  hasTVT : Bool := false
  tvtPfx : Option Nat := none
  tvtSfx : Option Nat := none

/-- The external collaborators consumed by `constraints.py` (see its
imported modules): the subtype oracle, member lookup, the type algebra,
and the class table.  Theorems quantify over these. -/
structure Oracles where
  classInfo : String → ClassInfo
  is_subtype : Ty → Ty → Bool
  is_same_type : Ty → Ty → Bool
  is_protocol_implementation : Ty → Ty → Bool
  find_member : String → Ty → Ty → Bool → Bool → Option Ty
  member_settable : String → Ty → Bool
  is_callable_compatible_sub_ignore_ret : Ty → Ty → Bool
  erase_typevars : Ty → Ty
  make_simplified_union : List Ty → Ty
  map_instance_args : Ty → String → List Ty
  tuple_fallback : Ty → Ty
  with_unpacked_kwargs : Ty → Ty

/-- `TypeInfo.is_named_tuple` of an instance type's class. -/
def isNamedTupleInstance (O : Oracles) : Ty → Bool
  | .inst n _ => (O.classInfo n).isNamedTuple
  | _ => false

/-- `Constraint`: a directed bound on one type variable.  `__init__` takes
the originating `TypeVarLikeType`, stores its `.id` as `type_var` and the
variable itself as `origin_type_var`. -/
structure Constraint where
  type_var : Nat
  op : Dir
  target : Ty
  origin_type_var : Ty

/-- `Constraint.__init__`. -/
def mkConstraint (typeVarLike : Ty) (op : Dir) (target : Ty) : Constraint :=
  { type_var := typeVarLike.varId, op := op, target := target,
    origin_type_var := typeVarLike }

/-- `Constraint.__eq__` (and the key of `__hash__`): structural over the
triple `(type_var, op, target)`; `origin_type_var` is not compared. -/
def ceq (c1 c2 : Constraint) : Bool :=
  c1.type_var == c2.type_var && c1.op == c2.op && c1.target == c2.target

/-- Python `==` on `list[Constraint]` (elementwise `Constraint.__eq__`). -/
def listCeq : List Constraint → List Constraint → Bool
  | [], [] => true
  | c :: cs, d :: ds => ceq c d && listCeq cs ds
  | _, _ => false

/-- Python `==` on `list[Constraint] | None` options. -/
def optCeq : Option (List Constraint) → Option (List Constraint) → Bool
  | none, none => true
  | some l1, some l2 => listCeq l1 l2
  | _, _ => false

/-- Python `==` on lists of options (`filtered_options != options`). -/
def optListCeq : List (Option (List Constraint)) → List (Option (List Constraint)) → Bool
  | [], [] => true
  | o :: os, p :: ps => optCeq o p && optListCeq os ps
  | _, _ => false

/-- `is_same_constraint`: like `__eq__` but with the target compared by
the `is_same_type` oracle, and the direction ignored when both targets are
the `Any` type. -/
def is_same_constraint (O : Oracles) (c1 c2 : Constraint) : Bool :=
  let skipOpCheck :=
    (match getProper c1.target with | .anyT _ => true | _ => false) &&
    (match getProper c2.target with | .anyT _ => true | _ => false)
  c1.type_var == c2.type_var && (c1.op == c2.op || skipOpCheck) &&
    O.is_same_type c1.target c2.target

/-- `is_same_constraints`: both lists mutually covered by
`is_same_constraint`. -/
def is_same_constraints (O : Oracles) (x y : List Constraint) : Bool :=
  x.all (fun c1 => y.any (fun c2 => is_same_constraint O c1 c2)) &&
  y.all (fun c1 => x.any (fun c2 => is_same_constraint O c1 c2))

/-- `_is_similar_constraints`: every constraint of `x` has one in `y` with
the same variable and direction (direction ignored when either target is
`Any`). -/
def isSimilarConstraintsOneWay (x y : List Constraint) : Bool :=
  x.all (fun c1 => y.any (fun c2 =>
    let skipOpCheck :=
      (match getProper c1.target with | .anyT _ => true | _ => false) ||
      (match getProper c2.target with | .anyT _ => true | _ => false)
    c1.type_var == c2.type_var && (c1.op == c2.op || skipOpCheck)))

/-- `is_similar_constraints`: similar structure in both directions. -/
def is_similar_constraints (x y : List Constraint) : Bool :=
  isSimilarConstraintsOneWay x y && isSimilarConstraintsOneWay y x

/-- `select_trivial`: the non-`None` options whose every constraint
targets `Any`. -/
def select_trivial (options : List (Option (List Constraint))) : List (List Constraint) :=
  options.filterMap (fun o =>
    match o with
    | none => none
    | some option =>
      if option.all (fun c => match getProper c.target with | .anyT _ => true | _ => false)
      then some option else none)

/-- `merge_with_any`: replace the target with its union against an
implementation-artifact `Any`, unless already a union with `Any`. -/
def merge_with_any (c : Constraint) : Constraint :=
  if isUnionWithAny c.target then c
  else
    mkConstraint c.origin_type_var c.op
      (match [c.target, Ty.anyT .implementationArtifact] with
       | [] => .uninhabited
       | [t] => t
       | ts => .unionT ts)

/-- `filter_satisfiable`: keep the constraints whose target is a subtype
of the originating variable's upper bound; a non-empty option emptied this
way becomes the unsatisfiable sentinel `none`. -/
def filter_satisfiable (O : Oracles) : Option (List Constraint) → Option (List Constraint)
  | none => none
  | some [] => some []
  | some option =>
    let satisfiable := option.filter (fun c => O.is_subtype c.target c.origin_type_var.upperBound)
    if satisfiable.isEmpty then none else some satisfiable

/-- The survivor selection of `any_constraints`: drop `None` sentinels,
and additionally drop empty lists when `eager`. -/
def validOptions (options : List (Option (List Constraint))) (eager : Bool) :
    List (List Constraint) :=
  if eager then
    options.filterMap (fun o => match o with
      | some [] => none
      | some l => some l
      | none => none)
  else
    options.filterMap id

/-- Membership by `Constraint.__eq__` (Python `option in trivial_options`). -/
def memListCeq (l : List Constraint) (ls : List (List Constraint)) : Bool :=
  ls.any (fun l2 => listCeq l l2)

/-- `any_constraints`: reconcile alternative constraint sets.  The
recursion of the source (merge-with-`Any` retry, filter-satisfiable retry)
is fuel-indexed; in the source it terminates because merging removes all
trivial options and filtering is idempotent. -/
def any_constraints (O : Oracles) : Nat → List (Option (List Constraint)) → Bool →
    List Constraint
  | 0, _, _ => []
  | fuel + 1, options, eager =>
    let valid := validOptions options eager
    match valid with
    | [] => []
    | v0 :: vs =>
      if vs.isEmpty then v0
      else if vs.all (fun c => is_same_constraints O v0 c) then v0
      else
        let fallthrough :=
          let filtered := options.map (filter_satisfiable O)
          if optListCeq filtered options then []
          else any_constraints O fuel filtered eager
        if vs.all (fun c => is_similar_constraints v0 c) then
          let trivial := select_trivial (valid.map some)
          if !trivial.isEmpty && trivial.length < valid.length then
            let merged := valid.filterMap (fun o =>
              if memListCeq o trivial then none
              else some (some (o.map merge_with_any)))
            any_constraints O fuel merged eager
          else fallthrough
        else fallthrough

/-- The mutable state of one inference request: `TypeState.inferring`
(most recent first) and the per-protocol-class `TypeInfo.inferring`
stacks, kept as one log of `(fullname, instance)` entries, most recent
first. -/
structure St where
  inferring : List (Ty × Ty) := []
  protoInferring : List (String × Ty) := []

/-- The effect monad of the embedding: state plus Python exceptions.
State mutations survive a raised exception (no rollback), as in Python. -/
def M (α : Type) : Type := St → Except Err α × St

instance : Monad M where
  pure a := fun s => (.ok a, s)
  bind x f := fun s =>
    match x s with
    | (.ok a, s1) => f a s1
    | (.error e, s1) => (.error e, s1)

/-- Raise a Python exception. -/
def M.throwE {α : Type} (e : Err) : M α := fun s => (.error e, s)

/-- Read the guard state. -/
def M.getS : M St := fun s => (.ok s, s)

/-- Mutate the guard state. -/
def M.modifyS (f : St → St) : M Unit := fun s => (.ok (), f s)

/-- `TypeState.inferring.append(...)`. -/
def pushTS (p : Ty × Ty) (s : St) : St :=
  { s with inferring := p :: s.inferring }

/-- `TypeState.inferring.pop()`. -/
def popTS (s : St) : St :=
  { s with inferring := s.inferring.tail }

/-- `template.type.inferring.append(t)` for the class named `name`. -/
def pushProto (name : String) (t : Ty) (s : St) : St :=
  { s with protoInferring := (name, t) :: s.protoInferring }

/-- Remove the most recent entry of the class named `name`
(`template.type.inferring.pop()`). -/
def dropFirstProto (name : String) : List (String × Ty) → List (String × Ty)
  | [] => []
  | p :: ps => if p.1 == name then ps else p :: dropFirstProto name ps

/-- `template.type.inferring.pop()` for the class named `name`. -/
def popProto (name : String) (s : St) : St :=
  { s with protoInferring := dropFirstProto name s.protoInferring }

/-- Is `t` on the `inferring` stack of the class named `name`
(`any(t == x for x in info.inferring)`)? -/
def onProtoStack (name : String) (t : Ty) (s : St) : Bool :=
  s.protoInferring.any (fun p => p.1 == name && p.2 == t)

/-- Push / run / pop around the `TypeState.inferring` guard; a raised
exception skips the pop, as in the source (no `try/finally`). -/
def withTSGuard {α : Type} (p : Ty × Ty) (m : M α) : M α := do
  M.modifyS (pushTS p)
  let a ← m
  M.modifyS popTS
  pure a

/-- Push / run / pop around a per-protocol guard; a raised exception skips
the pop, as in the source. -/
def withProtoGuard {α : Type} (name : String) (t : Ty) (m : M α) : M α := do
  M.modifyS (pushProto name t)
  let a ← m
  M.modifyS (popProto name)
  pure a

/-- `for x in xs: res.extend(f x)` over an empty initial accumulator. -/
def forConcat {α : Type} (xs : List α) (f : α → M (List Constraint)) : M (List Constraint) :=
  match xs with
  | [] => pure []
  | x :: rest => do
    let a ← f x
    let b ← forConcat rest f
    pure (a ++ b)

/-- A Python list comprehension of monadic calls. -/
def mapML {α β : Type} (xs : List α) (f : α → M β) : M (List β) :=
  match xs with
  | [] => pure []
  | x :: rest => do
    let a ← f x
    let b ← mapML rest f
    pure (a :: b)

/-- The mutually recursive procedures of `constraints.py`, at one fuel
level: the dispatcher (`infer_constraints` / `_infer_constraints` /
`infer_constraints_if_possible` / `handle_recursive_union`), the shape
matcher (`ConstraintBuilderVisitor`, one field per non-trivial visit
method), and the protocol matcher. -/
structure EngineFns where
  infer : Ty → Ty → Dir → M (List Constraint)
  inner : Ty → Ty → Dir → M (List Constraint)
  ifPossible : Ty → Ty → Dir → M (Option (List Constraint))
  recUnion : List Ty → Ty → Dir → M (List Constraint)
  visit : Ty → Ty → Dir → M (List Constraint)
  visitInst : String → List Ty → Ty → Dir → M (List Constraint)
  visitCall : Ty → Ty → Dir → M (List Constraint)
  visitTup : Ty → Ty → Dir → M (List Constraint)
  visitTD : Ty → Ty → Dir → M (List Constraint)
  visitOv : List Ty → Ty → Dir → M (List Constraint)
  visitTT : Ty → Ty → Dir → M (List Constraint)
  proto : Ty → Ty → Ty → Ty → Bool → Dir → M (List Constraint)
  againstAny : List Ty → Ty → Dir → M (List Constraint)

/-- `infer_constraints` (the entry point, lines 127-163): cycle break on
the `TypeState.inferring` stack, early empty return for a recursive
template without variables, otherwise guarded descent into
`_infer_constraints`. -/
def inferBody (_O : Oracles) (prev : EngineFns) (template actual : Ty) (d : Dir) :
    M (List Constraint) := do
  let s ← M.getS
  if s.inferring.any (fun p =>
      getProper template == getProper p.1 && getProper actual == getProper p.2) then
    pure []
  else if hasRecursiveTypes template then
    if !hasTypeVars template then pure []
    else withTSGuard (template, actual) (prev.inner template actual d)
  else prev.inner template actual d

/-- The union normalization of `_infer_constraints` (lines 175-178):
reduce a union operand to `make_simplified_union` of its items. -/
def simplifyUnion (O : Oracles) (t : Ty) : Ty :=
  match t with
  | .unionT items => O.make_simplified_union items
  | _ => t

/-- `isinstance(actual, AnyType) and actual.type_of_any ==
TypeOfAny.suggestion_engine` (line 184). -/
def isSuggestionAny : Ty → Bool
  | .anyT .suggestionEngine => true
  | _ => false

/-- `isinstance(template, TypeVarType)` (line 194). -/
def isBareTypeVar : Ty → Bool
  | .typeVar _ _ _ => true
  | _ => false

/-- `_infer_constraints` (lines 166-243): normalization, the
suggestion-engine `Any` filter, the bare-variable base case, the four
union-distribution cases, then dispatch to the shape matcher. -/
def innerBody (O : Oracles) (anyFuel : Nat) (prev : EngineFns)
    (template actual : Ty) (d : Dir) : M (List Constraint) :=
  let origTemplate := template
  let t2 := simplifyUnion O (getProper template)
  let a2 := simplifyUnion O (getProper actual)
  if isSuggestionAny a2 then pure []
  else if isBareTypeVar t2 then
    pure [mkConstraint t2 d a2]
  else if d = .sub then
    match t2 with
    | .unionT titems => forConcat titems (fun ti => prev.infer ti a2 d)
    | _ =>
      match a2 with
      | .unionT aitems => do
        let items := simplifyAwayIncompleteTypes aitems
        let opts ← mapML items (fun ai => prev.ifPossible t2 ai d)
        pure (any_constraints O anyFuel opts true)
      | _ => prev.visit t2 a2 d
  else
    match a2 with
    | .unionT aitems => forConcat aitems (fun ai => prev.infer origTemplate ai d)
    | _ =>
      match t2 with
      | .unionT titems => do
        let opts ← mapML titems (fun ti => prev.ifPossible ti a2 d)
        let result := any_constraints O anyFuel opts false
        if !result.isEmpty then pure result
        else if hasRecursiveTypes t2 && !hasRecursiveTypes a2 then
          prev.recUnion titems a2 d
        else pure []
      | _ => prev.visit t2 a2 d

/-- `infer_constraints_if_possible` (lines 246-268): `none` when the
relation is already known unsatisfiable by the subtype oracle. -/
def ifPossibleBody (O : Oracles) (prev : EngineFns) (template actual : Ty) (d : Dir) :
    M (Option (List Constraint)) :=
  if d = .sub && !(O.is_subtype (O.erase_typevars template) actual) then pure none
  else if d = .super && !(O.is_subtype actual (O.erase_typevars template)) then pure none
  else if d = .super &&
      (match template with | .typeVar _ _ _ => true | _ => false) &&
      !(O.is_subtype actual (O.erase_typevars template.upperBound)) then pure none
  else do
    let r ← prev.infer template actual d
    pure (some r)

/-- `handle_recursive_union` (lines 297-307): try the non-variable items,
then the bare-variable items. -/
def recUnionBody (_O : Oracles) (prev : EngineFns) (items : List Ty) (actual : Ty)
    (d : Dir) : M (List Constraint) := do
  let nonTypeVarItems := items.filter (fun t =>
    match t with | .typeVar _ _ _ => false | _ => true)
  let typeVarItems := items.filter (fun t =>
    match t with | .typeVar _ _ _ => true | _ => false)
  let r1 ← prev.infer (mkUnion nonTypeVarItems) actual d
  if !r1.isEmpty then pure r1
  else prev.infer (mkUnion typeVarItems) actual d

/-- The loop of `infer_constraints_from_protocol_members` (lines
794-806), returning `none` as soon as a member lookup fails on either
side (the Python `return []` discarding everything). -/
def protoLoop (O : Oracles) (prev : EngineFns) (instTy template subtype protocol : Ty)
    (classObj : Bool) (d : Dir) : List String → M (Option (List Constraint))
  | [] => pure (some [])
  | member :: rest => do
    let instMem := O.find_member member instTy subtype false classObj
    let tempMem := O.find_member member template subtype false false
    match instMem, tempMem with
    | some i, some temp => do
      let r1 ← prev.infer temp i d
      let r2 ← (if O.member_settable member protocol then prev.infer temp i (neg_op d)
               else pure [])
      let orest ← protoLoop O prev instTy template subtype protocol classObj d rest
      pure (orest.map (fun rr => r1 ++ r2 ++ rr))
    | _, _ => pure none

/-- `infer_constraints_from_protocol_members` (lines 780-806). -/
def protoBody (O : Oracles) (prev : EngineFns) (instTy template subtype protocol : Ty)
    (classObj : Bool) (d : Dir) : M (List Constraint) :=
  match protocol with
  | .inst pname _ => do
    let o ← protoLoop O prev instTy template subtype protocol classObj d
      ((O.classInfo pname).protocolMembers)
    pure (o.getD [])
  | _ => M.throwE .runtimeErr

/-- The `isinstance(tvar, ParamSpecType)` arms of the two nominal
inference loops of `visit_instance` (lines 599-619 and 689-712): `x` is
the parameter-specification argument owning the prefix, `y` supplies the
suffix. -/
def pspecBind (x y : Ty) : List Constraint :=
  match x with
  | .paramSpec _ pfxT _ _ _ =>
    let suffix0 := getProper y
    let suffix1 := match suffix0 with
      | .callable ats aks ans ret ell obj fc tg fb =>
        Ty.callable ats aks ans ret ell obj (!pfxT.isEmpty || fc) tg fb
      | _ => suffix0
    match suffix1 with
    | .callable .. => [mkConstraint x .super (dropArgsPfx pfxT.length suffix1)]
    | .params .. => [mkConstraint x .super (dropArgsPfx pfxT.length suffix1)]
    | .paramSpec .. => [mkConstraint x .super suffix1]
    | _ => []
  | _ => []

/-- The shared shape of the two nominal inference loops of
`visit_instance` (lines 588-621 and 678-712): for each triple of a
definition-site variable kind, the template-side argument `x` and the
other-side argument `y`, recurse by variance (plain variables), bind the
suffix (parameter specifications), or raise (variable-arity variables:
`NotImplementedError` in the subtype loop, `assert` in the supertype
loop). -/
def nominalLoop (O : Oracles) (prev : EngineFns) (d : Dir) (tvtErr : Err) :
    List (TVKind × Ty × Ty) → M (List Constraint)
  | [] => pure []
  | (k, x, y) :: rest => do
    let head ← (match k with
      | .plain variance => do
        let r1 ← (if variance ≠ .contravariant then prev.infer x y d else pure [])
        let r2 ← (if variance ≠ .covariant then prev.infer x y (neg_op d) else pure [])
        pure (r1 ++ r2)
      | .pspec => pure (pspecBind x y)
      | .tvtuple => M.throwE tvtErr)
    let rest2 ← nominalLoop O prev d tvtErr rest
    pure (head ++ rest2)

/-- `split_with_prefix_and_suffix` applied to the definition-site variable
list (lines 667-672). -/
def splitTVars (tvars : List TVKind) (p s : Nat) : List TVKind :=
  tvars.take p ++ tvars.drop (tvars.length - s)

/-- The tail of `visit_instance` (lines 753-778): fallbacks once no
nominal or structural match produced constraints. -/
def afterInstBlock (O : Oracles) (prev : EngineFns) (tname : String) (targs : List Ty)
    (res : List Constraint) (actual : Ty) (d : Dir) : M (List Constraint) :=
  let template := Ty.inst tname targs
  if !res.isEmpty then pure res
  else
    match actual with
    | .anyT _ => prev.againstAny targs actual d
    | .tup aitems _ =>
      if tupleLikeNames.contains tname && d = .super then
        match targs with
        | t0 :: _ => forConcat aitems (fun item => prev.infer t0 item .super)
        | [] => M.throwE .runtimeErr
      else if d = .super then prev.infer template (O.tuple_fallback actual) d
      else pure []
    | .typeVar _ values ub =>
      if values.isEmpty then prev.infer template ub d else pure []
    | .paramSpec _ _ _ _ ub => prev.infer template ub d
    | .typeVarTuple _ _ => M.throwE .notImplemented
    | _ => pure []

/-- The `isinstance(actual, Instance)` block of `visit_instance` (lines
577-752): nominal inference along the inheritance chain (with the
variable-arity split in the supertype direction), then structural
protocol matching under the per-protocol reentry guards. -/
def instCase (O : Oracles) (prev : EngineFns) (tname : String) (targs : List Ty)
    (origActual : Ty) (res : List Constraint) (iname : String) (iargs : List Ty)
    (d : Dir) : M (List Constraint) := do
  let template := Ty.inst tname targs
  let instTy := Ty.inst iname iargs
  let info := O.classInfo tname
  let iinfo := O.classInfo iname
  let erased := O.erase_typevars template
  match erased with
  | .inst _ _ =>
    if d = .sub && info.mro.contains iname then do
      let mappedArgs := O.map_instance_args template iname
      let r ← nominalLoop O prev d .notImplemented (zip3 iinfo.typeVarDefs mappedArgs iargs)
      pure (res ++ r)
    else if d = .super && iinfo.mro.contains tname then do
      let mapped := O.map_instance_args instTy tname
      if info.hasTVT then
        match info.tvtPfx, info.tvtSfx with
        | some p, some sfx => do
          let splitM := splitPfxSfx mapped p sfx
          let splitT := splitPfxSfx targs p sfx
          let mappedMiddle := splitM.2.1
          let rTvt ← (match extractUnpack splitT.2.1 with
            | some u =>
              match u with
              | .typeVarTuple _ _ => pure [mkConstraint u .super (Ty.typeList mappedMiddle)]
              | .inst uname uargs =>
                if uname == "builtins.tuple" then
                  match uargs with
                  | u0 :: _ => forConcat mappedMiddle (fun item => prev.infer u0 item d)
                  | [] => M.throwE .runtimeErr
                else pure []
              | .tup uitems _ =>
                if uitems.length == mappedMiddle.length then
                  forConcat (uitems.zip mappedMiddle) (fun q => prev.infer q.1 q.2 d)
                else pure []
              | _ => pure []
            | none => pure [])
          let mappedEff := splitM.1 ++ splitM.2.2
          let targsEff := splitT.1 ++ splitT.2.2
          let tvarsEff := splitTVars info.typeVarDefs p sfx
          let r ← nominalLoop O prev d .assertFail
            ((zip3 tvarsEff mappedEff targsEff).map (fun x => (x.1, x.2.2, x.2.1)))
          pure (res ++ rTvt ++ r)
        | _, _ => M.throwE .assertFail
      else do
        let r ← nominalLoop O prev d .assertFail
          ((zip3 info.typeVarDefs mapped targs).map (fun x => (x.1, x.2.2, x.2.1)))
        pure (res ++ r)
    else do
      let s ← M.getS
      if info.isProtocol && d = .super && !(onProtoStack tname template s) &&
          O.is_protocol_implementation instTy erased then do
        let r ← withProtoGuard tname template
          (prev.proto instTy template origActual template false d)
        pure (res ++ r)
      else if iinfo.isProtocol && d = .sub && !(onProtoStack iname instTy s) &&
          O.is_protocol_implementation erased instTy then do
        let r ← withProtoGuard iname instTy
          (prev.proto instTy template template instTy false d)
        pure (res ++ r)
      else afterInstBlock O prev tname targs res instTy d
  | _ => M.throwE .assertFail

/-- The body of `visit_instance` after the generic-callback-protocol
special case (lines 543-778): unwrap the actual, then `instCase` or the
fallback tail. -/
def visitInstMain (O : Oracles) (prev : EngineFns) (tname : String) (targs : List Ty)
    (origActual : Ty) (d : Dir) : M (List Constraint) := do
  let template := Ty.inst tname targs
  let info := O.classInfo tname
  let step1 ← (match origActual with
    | .callable _ _ _ ret _ isTypeObj _ _ fb =>
      if isTypeObj && info.isProtocol then do
        let rt0 := getProper ret
        let rt := match rt0 with | .tup _ _ => O.tuple_fallback rt0 | _ => rt0
        match rt with
        | .inst _ _ => do
          let subtype := if d = .sub then template else rt
          let r ← prev.proto rt template subtype template true d
          pure (r, fb)
        | _ => pure (([] : List Constraint), fb)
      else pure (([] : List Constraint), fb)
    | _ => pure (([] : List Constraint), origActual))
  let res1 := step1.1
  let a1 := step1.2
  let res2 ← (match a1 with
    | .typeType item =>
      if info.isProtocol then
        match item with
        | .inst _ _ => do
          let subtype := if d = .sub then template else item
          let r ← prev.proto item template subtype template true d
          pure (res1 ++ r)
        | _ => pure res1
      else pure res1
    | _ => pure res1)
  let a2 := match a1 with | .overloaded _ => overloadFallback a1 | _ => a1
  let a3 := match a2 with | .typedDict _ fb => fb | _ => a2
  let a4 := match a3 with | .literal fb => fb | _ => a3
  match a4 with
  | .inst iname iargs => instCase O prev tname targs origActual res2 iname iargs d
  | _ => afterInstBlock O prev tname targs res2 a4 d

/-- `visit_instance` (lines 526-778): the generic-callback-protocol
shortcut, then `visitInstMain`. -/
def visitInstBody (O : Oracles) (prev : EngineFns) (tname : String) (targs : List Ty)
    (actual : Ty) (d : Dir) : M (List Constraint) := do
  let template := Ty.inst tname targs
  let info := O.classInfo tname
  let isCallOrOv := match actual with
    | .callable .. => true
    | .overloaded _ => true
    | _ => false
  if isCallOrOv && info.isProtocol && info.protocolMembers == ["__call__"] then do
    let s ← M.getS
    if !(onProtoStack tname template s) then
      withProtoGuard tname template (do
        match O.find_member "__call__" template actual true false with
        | none => M.throwE .assertFail
        | some call =>
          (if O.is_subtype actual (O.erase_typevars call) then
            prev.infer call actual d
          else pure []))
    else visitInstMain O prev tname targs actual d
  else visitInstMain O prev tname targs actual d

/-- `visit_callable_type` (lines 808-905). -/
def visitCallBody (O : Oracles) (prev : EngineFns) (t actual0 : Ty) (d : Dir) :
    M (List Constraint) :=
  match O.with_unpacked_kwargs t with
  | .callable tArgTypes _ _ tRet tEll _ _ tTG tFB =>
    let template := O.with_unpacked_kwargs t
    (match actual0 with
     | .callable .. =>
       let cactual := O.with_unpacked_kwargs actual0
       (match cactual with
        | .callable aArgTypes aArgKinds aArgNames aRet aEll aObj aFC aTG aFB => do
          let res1 ← (match paramSpecOf template with
            | none =>
              if !tEll then
                forConcat (tArgTypes.zip aArgTypes) (fun p => prev.infer p.1 p.2 (neg_op d))
              else pure []
            | some ps => do
              let pfxT := match ps with | .paramSpec _ pt _ _ _ => pt | _ => []
              let c1pl :=
                match paramSpecOf cactual with
                | none =>
                  let maxPfxLen := (aArgKinds.filter (fun k => k == ArgKind.pos || k == ArgKind.opt)).length
                  let pl := min pfxT.length maxPfxLen
                  (mkConstraint ps .sub
                    (Ty.callable (aArgTypes.drop pl) (aArgKinds.drop pl) (aArgNames.drop pl)
                      Ty.noneT aEll aObj aFC aTG aFB), pl)
                | some cps => (mkConstraint ps .sub cps, pfxT.length)
              let r2 ← forConcat (pfxT.zip (aArgTypes.take c1pl.2))
                (fun p => prev.infer p.1 p.2 (neg_op d))
              pure ([c1pl.1] ++ r2))
          let tRetEff := match tTG with | some g => g | none => tRet
          let aRetEff := match aTG with | some g => g | none => aRet
          let r3 ← prev.infer tRetEff aRetEff d
          pure (res1 ++ r3)
        | _ => M.throwE .runtimeErr)
     | .anyT _ => do
       let anyNew := Ty.anyT .fromAnotherAny
       let res1 ← (match paramSpecOf template with
         | none => prev.againstAny tArgTypes actual0 d
         | some ps => pure [mkConstraint ps .sub (mkEllipsisCallable anyNew anyNew tFB)])
       let r2 ← prev.infer tRet anyNew d
       pure (res1 ++ r2)
     | .overloaded items =>
       (match items with
        | [] => M.throwE .runtimeErr
        | i0 :: _ =>
          let item := (items.find? (fun it =>
            O.is_callable_compatible_sub_ignore_ret it template)).getD i0
          prev.infer template item d)
     | .typeType item2 => prev.infer tRet item2 d
     | .inst _ _ =>
       (match O.find_member "__call__" actual0 actual0 true false with
        | some call => prev.infer template call d
        | none => pure [])
     | _ => pure [])
  | _ => M.throwE .runtimeErr

/-- `visit_tuple_type` (lines 918-975). -/
def visitTupBody (O : Oracles) (prev : EngineFns) (t actual : Ty) (d : Dir) :
    M (List Constraint) :=
  match t with
  | .tup titems tfb =>
    let isVarLen := match actual with | .inst "builtins.tuple" _ => true | _ => false
    let cont : M (List Constraint) :=
      (match actual with
       | .tup aitems afb =>
         if aitems.length == titems.length then
           if isNamedTupleInstance O afb && isNamedTupleInstance O tfb then
             prev.infer tfb afb d
           else
             forConcat (titems.zip aitems) (fun p => prev.infer p.1 p.2 d)
         else pure []
       | .anyT _ => prev.againstAny titems actual d
       | _ => pure [])
    (match firstUnpack titems with
     | some (idx, item) =>
       (match getProper item with
        | .unpack innerT =>
          let unpacked := getProper innerT
          (match unpacked with
           | .typeVarTuple _ _ =>
             if isVarLen && titems.length ≠ 1 then M.throwE .assertFail
             else
               let okActual := (match actual with
                 | .tup _ _ => true
                 | .anyT _ => true
                 | _ => isVarLen)
               if okActual then
                 let modifiedActual := match actual with
                   | .tup aitems afb =>
                     Ty.tup (splitPfxSfx aitems idx (titems.length - idx - 1)).2.1 afb
                   | _ => actual
                 pure [mkConstraint unpacked d modifiedActual]
               else cont
           | _ => cont)
        | _ => M.throwE .assertFail)
     | none => cont)
  | _ => M.throwE .runtimeErr

/-- `TypedDictType.zip` (external, `mypy.types`): template items shared by
name with the actual, in template order. -/
def tdZip (tfields afields : List (String × Ty)) : List (Ty × Ty) :=
  tfields.filterMap (fun p =>
    match afields.find? (fun q => q.1 == p.1) with
    | some q => some (p.2, q.2)
    | none => none)

/-- `visit_typeddict_type` (lines 977-989). -/
def visitTDBody (_O : Oracles) (prev : EngineFns) (t actual : Ty) (d : Dir) :
    M (List Constraint) :=
  match t with
  | .typedDict tfields _ =>
    (match actual with
     | .typedDict afields _ =>
       forConcat (tdZip tfields afields) (fun p => prev.infer p.1 p.2 d)
     | .anyT _ => prev.againstAny (tfields.map (fun p => p.2)) actual d
     | _ => pure [])
  | _ => M.throwE .runtimeErr

/-- `visit_overloaded` with `find_matching_overload_items` (lines
1009-1017 and 1058-1075). -/
def visitOvBody (O : Oracles) (prev : EngineFns) (items : List Ty) (actual : Ty)
    (d : Dir) : M (List Constraint) :=
  let chosen := match actual with
    | .callable .. =>
      let found := items.filter (fun it => O.is_callable_compatible_sub_ignore_ret it actual)
      if found.isEmpty then items else found
    | _ => items
  forConcat chosen (fun it => prev.infer it actual d)

/-- `visit_type_type` (lines 1019-1029). -/
def visitTTBody (_O : Oracles) (prev : EngineFns) (item actual : Ty) (d : Dir) :
    M (List Constraint) :=
  match actual with
  | .callable _ _ _ ret _ _ _ _ _ => prev.infer item ret d
  | .overloaded its =>
    (match its with
     | c :: _ =>
       (match c with
        | .callable _ _ _ ret _ _ _ _ _ => prev.infer item ret d
        | _ => M.throwE .runtimeErr)
     | [] => M.throwE .runtimeErr)
  | .typeType item2 => prev.infer item item2 d
  | .anyT _ => prev.infer item actual d
  | _ => pure []

/-- `infer_against_any` (lines 1000-1007). -/
def againstAnyBody (_O : Oracles) (prev : EngineFns) (types : List Ty) (anyTy : Ty)
    (d : Dir) : M (List Constraint) :=
  forConcat types (fun t => prev.infer t anyTy d)

/-- The `template.accept(ConstraintBuilderVisitor(actual, direction))`
dispatch (line 243): one arm per template shape.  Trivial leaves yield no
constraints; `PartialType`, `TypeVarType`, `UnionType` and
`TypeAliasType` templates are caller-contract violations (`assert
False`); variable-arity leaves are not implemented; a bare parameter list
is legal only against `Any`. -/
def visitBody (_O : Oracles) (prev : EngineFns) (template actual : Ty) (d : Dir) :
    M (List Constraint) :=
  match template with
  | .unbound => pure []
  | .anyT _ => pure []
  | .noneT => pure []
  | .uninhabited => pure []
  | .erasedT => pure []
  | .deleted => pure []
  | .literal _ => pure []
  | .partialT => M.throwE .assertFail
  | .typeVar _ _ _ => M.throwE .assertFail
  | .paramSpec _ _ _ _ _ => pure []
  | .typeVarTuple _ _ => M.throwE .notImplemented
  | .unpack _ => M.throwE .notImplemented
  | .params argTypes _ _ =>
    (match actual with
     | .anyT _ => prev.againstAny argTypes actual d
     | _ => M.throwE .runtimeErr)
  | .inst name args => prev.visitInst name args actual d
  | .callable .. => prev.visitCall template actual d
  | .tup .. => prev.visitTup template actual d
  | .typedDict .. => prev.visitTD template actual d
  | .unionT _ => M.throwE .assertFail
  | .overloaded items => prev.visitOv items actual d
  | .typeType item => prev.visitTT item actual d
  | .typeList _ => M.throwE .runtimeErr
  | .typeAlias .. => M.throwE .assertFail

/-- Fuel exhausted: every procedure raises the artificial `fuelOut`. -/
def baseEngine : EngineFns where
  infer := fun _ _ _ => M.throwE .fuelOut
  inner := fun _ _ _ => M.throwE .fuelOut
  ifPossible := fun _ _ _ => M.throwE .fuelOut
  recUnion := fun _ _ _ => M.throwE .fuelOut
  visit := fun _ _ _ => M.throwE .fuelOut
  visitInst := fun _ _ _ _ => M.throwE .fuelOut
  visitCall := fun _ _ _ => M.throwE .fuelOut
  visitTup := fun _ _ _ => M.throwE .fuelOut
  visitTD := fun _ _ _ => M.throwE .fuelOut
  visitOv := fun _ _ _ => M.throwE .fuelOut
  visitTT := fun _ _ _ => M.throwE .fuelOut
  proto := fun _ _ _ _ _ _ => M.throwE .fuelOut
  againstAny := fun _ _ _ => M.throwE .fuelOut

/-- One fuel level: every procedure body, with every (mutually) recursive
call made through the previous level.  `n` is the previous level, used as
the fuel of the pure `any_constraints` recursion. -/
def stepEngine (O : Oracles) (n : Nat) (prev : EngineFns) : EngineFns where
  infer := inferBody O prev
  inner := innerBody O (n + 1) prev
  ifPossible := ifPossibleBody O prev
  recUnion := recUnionBody O prev
  visit := visitBody O prev
  visitInst := visitInstBody O prev
  visitCall := visitCallBody O prev
  visitTup := visitTupBody O prev
  visitTD := visitTDBody O prev
  visitOv := visitOvBody O prev
  visitTT := visitTTBody O prev
  proto := protoBody O prev
  againstAny := againstAnyBody O prev

/-- The fuel-indexed family of the file's procedures. -/
def engine (O : Oracles) : Nat → EngineFns
  | 0 => baseEngine
  | n + 1 => stepEngine O n (engine O n)

/-- `infer_constraints(template, actual, direction)` at a given fuel. -/
def infer_constraints (O : Oracles) (fuel : Nat) (template actual : Ty) (d : Dir) :
    M (List Constraint) :=
  (engine O fuel).infer template actual d

/-- The inner loop of `infer_constraints_for_callable` (lines 112-122)
over the actual-argument indices mapped to formal `i`: a `None` recorded
type is skipped before the expander runs, otherwise the expander state is
threaded through `expand_actual_type` and the constraints of
`infer_constraints(callee.arg_types[i], actual_type, SUPERTYPE_OF)` are
collected.  Out-of-range indexing models a Python `IndexError`. -/
def iccActuals {σ : Type} (O : Oracles) (n : Nat)
    (expand : σ → Ty → ArgKind → Option String → ArgKind → Ty × σ)
    (argTypes : List (Option Ty)) (argKinds : List ArgKind)
    (calleeArgTypes : List Ty) (calleeArgKinds : List ArgKind)
    (calleeArgNames : List (Option String)) (i : Nat) :
    σ → List Nat → M (List Constraint × σ)
  | e, [] => pure ([], e)
  | e, j :: js =>
    match argTypes.get? j with
    | none => M.throwE .runtimeErr
    | some none =>
      iccActuals O n expand argTypes argKinds calleeArgTypes calleeArgKinds
        calleeArgNames i e js
    | some (some ty) =>
      match argKinds.get? j, calleeArgNames.get? i, calleeArgKinds.get? i,
            calleeArgTypes.get? i with
      | some ak, some cn, some ck, some ct => do
        let et := expand e ty ak cn ck
        let c ← (engine O n).infer ct et.1 .super
        let rest ← iccActuals O n expand argTypes argKinds calleeArgTypes
          calleeArgKinds calleeArgNames i et.2 js
        pure (c ++ rest.1, rest.2)
      | _, _, _, _ => M.throwE .runtimeErr

/-- The outer loop of `infer_constraints_for_callable` over
`enumerate(formal_to_actual)`. -/
def iccFormals {σ : Type} (O : Oracles) (n : Nat)
    (expand : σ → Ty → ArgKind → Option String → ArgKind → Ty × σ)
    (argTypes : List (Option Ty)) (argKinds : List ArgKind)
    (calleeArgTypes : List Ty) (calleeArgKinds : List ArgKind)
    (calleeArgNames : List (Option String)) :
    σ → Nat → List (List Nat) → M (List Constraint)
  | _, _, [] => pure []
  | e, i, actuals :: rest => do
    let p ← iccActuals O n expand argTypes argKinds calleeArgTypes calleeArgKinds
      calleeArgNames i e actuals
    let r ← iccFormals O n expand argTypes argKinds calleeArgTypes calleeArgKinds
      calleeArgNames p.2 (i + 1) rest
    pure (p.1 ++ r)

/-- `infer_constraints_for_callable` (lines 98-124), parameterized over
the external stateful `ArgTypeExpander` (`mypy.argmap`): `σ` is the
expander's state, `expand e t kind name formalKind` models
`mapper.expand_actual_type(t, kind, callee.arg_names[i],
callee.arg_kinds[i])` from state `e`. -/
def infer_constraints_for_callable {σ : Type} (O : Oracles) (n : Nat)
    (expand : σ → Ty → ArgKind → Option String → ArgKind → Ty × σ) (e0 : σ)
    (callee : Ty) (argTypes : List (Option Ty)) (argKinds : List ArgKind)
    (formalToActual : List (List Nat)) : M (List Constraint) :=
  match callee with
  | .callable cTypes cKinds cNames _ _ _ _ _ _ =>
    iccFormals O n expand argTypes argKinds cTypes cKinds cNames e0 0 formalToActual
  | _ => M.throwE .runtimeErr

/-- A concrete oracle instantiation, used by witnesses and
counterexamples: structural `is_same_type`, everything else the simplest
sensible behaviour. -/
def defaultOracles : Oracles where
  classInfo := fun _ => {}
  is_subtype := fun _ _ => true
  is_same_type := fun a b => a == b
  is_protocol_implementation := fun _ _ => false
  find_member := fun _ _ _ _ _ => none
  member_settable := fun _ _ => false
  is_callable_compatible_sub_ignore_ret := fun _ _ => true
  erase_typevars := fun t => t
  make_simplified_union := mkUnion
  map_instance_args := fun _ _ => []
  tuple_fallback := fun t => t
  with_unpacked_kwargs := fun t => t

/-- The empty request-boundary state. -/
def St.empty : St := {}

/-! State preservation: every procedure of the engine restores the guard
stacks on every successful exit.  (A raised exception can leave guard
entries behind — see the counterexample for C4.) -/

/-- A computation preserves the guard state on every successful run. -/
def Pres {α : Type} (m : M α) : Prop :=
  ∀ s r s2, m s = (.ok r, s2) → s2 = s

theorem M.run_bind {α β : Type} (x : M α) (f : α → M β) (s : St) :
    (x >>= f) s =
      match x s with
      | (.ok a, s1) => f a s1
      | (.error e, s1) => (.error e, s1) := rfl

theorem M.run_pure {α : Type} (a : α) (s : St) : (pure a : M α) s = (.ok a, s) := rfl

theorem pres_pure {α : Type} (a : α) : Pres (pure a : M α) := by
  intro s r s2 h
  rw [M.run_pure] at h
  exact (Prod.mk.injEq _ _ _ _ ▸ h).2.symm

theorem pres_throwE {α : Type} (e : Err) : Pres (M.throwE e : M α) := by
  intro s r s2 h
  exact absurd (congrArg Prod.fst h) (by simp [M.throwE])

theorem pres_bind {α β : Type} {x : M α} {f : α → M β}
    (hx : Pres x) (hf : ∀ a, Pres (f a)) : Pres (x >>= f) := by
  intro s r s2 h
  rw [M.run_bind] at h
  rcases hxe : x s with ⟨ex, s1⟩
  rw [hxe] at h
  cases ex with
  | ok a =>
    have h1 := hf a s1 r s2 h
    have h2 := hx s a s1 hxe
    exact h1.trans h2
  | error e => exact absurd (congrArg Prod.fst h) (by simp)

theorem pres_getS_bind {α : Type} {f : St → M α} (hf : ∀ a, Pres (f a)) :
    Pres (M.getS >>= f) := by
  refine pres_bind ?_ hf
  intro s r s2 h
  exact (Prod.mk.injEq _ _ _ _ ▸ h).2.symm

theorem popTS_pushTS (p : Ty × Ty) (s : St) : popTS (pushTS p s) = s := rfl

theorem popProto_pushProto (name : String) (t : Ty) (s : St) :
    popProto name (pushProto name t s) = s := by
  simp [popProto, pushProto, dropFirstProto]

theorem pres_withTSGuard {α : Type} {p : Ty × Ty} {m : M α} (hm : Pres m) :
    Pres (withTSGuard p m) := by
  intro s r s2 h
  unfold withTSGuard at h
  rw [M.run_bind] at h
  simp only [M.modifyS] at h
  rw [M.run_bind] at h
  rcases hme : m (pushTS p s) with ⟨em, s1⟩
  rw [hme] at h
  cases em with
  | ok a =>
    simp only [M.run_bind, M.modifyS, M.run_pure] at h
    have h2 := hm _ _ _ hme
    have h3 : s2 = popTS s1 := (Prod.mk.injEq _ _ _ _ ▸ h).2.symm
    rw [h3, h2, popTS_pushTS]
  | error e => exact absurd (congrArg Prod.fst h) (by simp)

theorem pres_withProtoGuard {α : Type} {name : String} {t : Ty} {m : M α}
    (hm : Pres m) : Pres (withProtoGuard name t m) := by
  intro s r s2 h
  unfold withProtoGuard at h
  rw [M.run_bind] at h
  simp only [M.modifyS] at h
  rw [M.run_bind] at h
  rcases hme : m (pushProto name t s) with ⟨em, s1⟩
  rw [hme] at h
  cases em with
  | ok a =>
    simp only [M.run_bind, M.modifyS, M.run_pure] at h
    have h2 := hm _ _ _ hme
    have h3 : s2 = popProto name s1 := (Prod.mk.injEq _ _ _ _ ▸ h).2.symm
    rw [h3, h2, popProto_pushProto]
  | error e => exact absurd (congrArg Prod.fst h) (by simp)

theorem pres_forConcat {α : Type} {xs : List α} {f : α → M (List Constraint)}
    (hf : ∀ x, Pres (f x)) : Pres (forConcat xs f) := by
  induction xs with
  | nil => exact pres_pure []
  | cons x rest ih =>
    unfold forConcat
    exact pres_bind (hf x) (fun a => pres_bind ih (fun b => pres_pure _))

theorem pres_mapML {α β : Type} {xs : List α} {f : α → M β}
    (hf : ∀ x, Pres (f x)) : Pres (mapML xs f) := by
  induction xs with
  | nil => exact pres_pure []
  | cons x rest ih =>
    unfold mapML
    exact pres_bind (hf x) (fun a => pres_bind ih (fun b => pres_pure _))


theorem pres_getS : Pres M.getS := by
  intro s r s2 h
  exact (Prod.mk.injEq _ _ _ _ ▸ h).2.symm

/-- Elimination form of `Pres`, stated before `Pres` is made opaque to
the tactic loop below. -/
theorem Pres.run {α : Type} {m : M α} (h : Pres m) :
    ∀ s r s2, m s = (.ok r, s2) → s2 = s := h

attribute [irreducible] Pres

set_option maxRecDepth 8192 in
theorem pres_inferBody (O : Oracles) (prev : EngineFns)
    (hinner : ∀ t a d, Pres (prev.inner t a d)) (t a : Ty) (d : Dir) :
    Pres (inferBody O prev t a d) := by
  unfold inferBody
  try dsimp only
  repeat
    first
    | exact pres_pure _
    | exact pres_throwE _
    | exact hinner _ _ _
    | exact pres_getS
    | apply pres_withTSGuard
    | apply pres_bind
    | intro x
    | split

theorem pres_innerBody (O : Oracles) (anyFuel : Nat) (prev : EngineFns)
    (hinfer : ∀ t a d, Pres (prev.infer t a d))
    (hip : ∀ t a d, Pres (prev.ifPossible t a d))
    (hru : ∀ ts a d, Pres (prev.recUnion ts a d))
    (hv : ∀ t a d, Pres (prev.visit t a d)) (t a : Ty) (d : Dir) :
    Pres (innerBody O anyFuel prev t a d) := by
  unfold innerBody
  try dsimp only
  repeat
    first
    | exact pres_pure _
    | exact pres_throwE _
    | exact hinfer _ _ _
    | exact hip _ _ _
    | exact hru _ _ _
    | exact hv _ _ _
    | exact pres_getS
    | apply pres_forConcat
    | apply pres_mapML
    | apply pres_bind
    | intro x
    | split

set_option maxRecDepth 8192 in
theorem pres_ifPossibleBody (O : Oracles) (prev : EngineFns)
    (hinfer : ∀ t a d, Pres (prev.infer t a d)) (t a : Ty) (d : Dir) :
    Pres (ifPossibleBody O prev t a d) := by
  unfold ifPossibleBody
  repeat
    first
    | exact pres_pure _
    | exact hinfer _ _ _
    | apply pres_bind
    | intro x
    | split

set_option maxRecDepth 8192 in
theorem pres_recUnionBody (O : Oracles) (prev : EngineFns)
    (hinfer : ∀ t a d, Pres (prev.infer t a d)) (ts : List Ty) (a : Ty) (d : Dir) :
    Pres (recUnionBody O prev ts a d) := by
  unfold recUnionBody
  repeat
    first
    | exact pres_pure _
    | exact hinfer _ _ _
    | apply pres_bind
    | intro x
    | split

set_option maxRecDepth 8192 in
theorem pres_protoLoop (O : Oracles) (prev : EngineFns)
    (hinfer : ∀ t a d, Pres (prev.infer t a d))
    (instTy template subtype protocol : Ty) (classObj : Bool) (d : Dir)
    (members : List String) :
    Pres (protoLoop O prev instTy template subtype protocol classObj d members) := by
  induction members with
  | nil => exact pres_pure _
  | cons m rest ih =>
    unfold protoLoop
    try dsimp only
    repeat'
      first
      | exact pres_pure _
      | exact pres_throwE _
      | exact hinfer _ _ _
      | exact ih
      | apply pres_bind
      | intro x
      | split
set_option maxRecDepth 8192 in
theorem pres_protoBody (O : Oracles) (prev : EngineFns)
    (hinfer : ∀ t a d, Pres (prev.infer t a d))
    (instTy template subtype protocol : Ty) (classObj : Bool) (d : Dir) :
    Pres (protoBody O prev instTy template subtype protocol classObj d) := by
  unfold protoBody
  repeat
    first
    | exact pres_pure _
    | exact pres_throwE _
    | exact pres_protoLoop O prev hinfer _ _ _ _ _ _ _
    | apply pres_bind
    | intro x
    | split

set_option maxRecDepth 8192 in
theorem pres_nominalLoop (O : Oracles) (prev : EngineFns)
    (hinfer : ∀ t a d, Pres (prev.infer t a d)) (d : Dir) (tvtErr : Err)
    (ps : List (TVKind × Ty × Ty)) :
    Pres (nominalLoop O prev d tvtErr ps) := by
  induction ps with
  | nil => exact pres_pure _
  | cons p rest ih =>
    unfold nominalLoop
    repeat
      first
      | exact pres_pure _
      | exact pres_throwE _
      | exact hinfer _ _ _
      | exact ih
      | apply pres_bind
      | intro x
      | split

set_option maxRecDepth 8192 in
theorem pres_afterInstBlock (O : Oracles) (prev : EngineFns)
    (hinfer : ∀ t a d, Pres (prev.infer t a d))
    (haa : ∀ ts a d, Pres (prev.againstAny ts a d))
    (tname : String) (targs : List Ty) (res : List Constraint) (a : Ty) (d : Dir) :
    Pres (afterInstBlock O prev tname targs res a d) := by
  unfold afterInstBlock
  repeat
    first
    | exact pres_pure _
    | exact pres_throwE _
    | exact hinfer _ _ _
    | exact haa _ _ _
    | apply pres_forConcat
    | apply pres_bind
    | intro x
    | split

set_option maxRecDepth 8192 in
theorem pres_instCase (O : Oracles) (prev : EngineFns)
    (hinfer : ∀ t a d, Pres (prev.infer t a d))
    (haa : ∀ ts a d, Pres (prev.againstAny ts a d))
    (hproto : ∀ i t st p c d, Pres (prev.proto i t st p c d))
    (tname : String) (targs : List Ty) (origActual : Ty) (res : List Constraint)
    (iname : String) (iargs : List Ty) (d : Dir) :
    Pres (instCase O prev tname targs origActual res iname iargs d) := by
  unfold instCase
  try dsimp only
  repeat'
    first
    | exact pres_pure _
    | exact pres_throwE _
    | exact hinfer _ _ _
    | exact haa _ _ _
    | exact hproto _ _ _ _ _ _
    | exact pres_getS
    | exact pres_nominalLoop O prev hinfer _ _ _
    | exact pres_afterInstBlock O prev hinfer haa _ _ _ _ _
    | apply pres_withProtoGuard
    | apply pres_forConcat
    | apply pres_bind
    | intro x
    | split
set_option maxRecDepth 8192 in
theorem pres_visitInstMain (O : Oracles) (prev : EngineFns)
    (hinfer : ∀ t a d, Pres (prev.infer t a d))
    (haa : ∀ ts a d, Pres (prev.againstAny ts a d))
    (hproto : ∀ i t st p c d, Pres (prev.proto i t st p c d))
    (tname : String) (targs : List Ty) (origActual : Ty) (d : Dir) :
    Pres (visitInstMain O prev tname targs origActual d) := by
  unfold visitInstMain
  repeat'
    first
    | exact pres_pure _
    | exact pres_throwE _
    | exact hinfer _ _ _
    | exact haa _ _ _
    | exact hproto _ _ _ _ _ _
    | exact pres_instCase O prev hinfer haa hproto _ _ _ _ _ _ _
    | exact pres_afterInstBlock O prev hinfer haa _ _ _ _ _
    | apply pres_bind
    | intro x
    | split
    | dsimp only
set_option maxRecDepth 8192 in
theorem pres_visitInstBody (O : Oracles) (prev : EngineFns)
    (hinfer : ∀ t a d, Pres (prev.infer t a d))
    (haa : ∀ ts a d, Pres (prev.againstAny ts a d))
    (hproto : ∀ i t st p c d, Pres (prev.proto i t st p c d))
    (tname : String) (targs : List Ty) (a : Ty) (d : Dir) :
    Pres (visitInstBody O prev tname targs a d) := by
  unfold visitInstBody
  repeat'
    first
    | exact pres_pure _
    | exact pres_throwE _
    | exact hinfer _ _ _
    | exact pres_getS
    | exact pres_visitInstMain O prev hinfer haa hproto _ _ _ _
    | apply pres_withProtoGuard
    | apply pres_bind
    | intro x
    | split
    | dsimp only
set_option maxRecDepth 8192 in
theorem pres_visitCallBody (O : Oracles) (prev : EngineFns)
    (hinfer : ∀ t a d, Pres (prev.infer t a d))
    (haa : ∀ ts a d, Pres (prev.againstAny ts a d))
    (t a : Ty) (d : Dir) :
    Pres (visitCallBody O prev t a d) := by
  unfold visitCallBody
  try dsimp only
  repeat'
    first
    | exact pres_pure _
    | exact pres_throwE _
    | exact hinfer _ _ _
    | exact haa _ _ _
    | apply pres_forConcat
    | apply pres_bind
    | intro x
    | split
set_option maxRecDepth 8192 in
theorem pres_visitTupBody (O : Oracles) (prev : EngineFns)
    (hinfer : ∀ t a d, Pres (prev.infer t a d))
    (haa : ∀ ts a d, Pres (prev.againstAny ts a d))
    (t a : Ty) (d : Dir) :
    Pres (visitTupBody O prev t a d) := by
  unfold visitTupBody
  try dsimp only
  repeat'
    first
    | exact pres_pure _
    | exact pres_throwE _
    | exact hinfer _ _ _
    | exact haa _ _ _
    | apply pres_forConcat
    | apply pres_bind
    | intro x
    | split
set_option maxRecDepth 8192 in
theorem pres_visitTDBody (O : Oracles) (prev : EngineFns)
    (hinfer : ∀ t a d, Pres (prev.infer t a d))
    (haa : ∀ ts a d, Pres (prev.againstAny ts a d))
    (t a : Ty) (d : Dir) :
    Pres (visitTDBody O prev t a d) := by
  unfold visitTDBody
  repeat
    first
    | exact pres_pure _
    | exact pres_throwE _
    | exact hinfer _ _ _
    | exact haa _ _ _
    | apply pres_forConcat
    | apply pres_bind
    | intro x
    | split

set_option maxRecDepth 8192 in
theorem pres_visitOvBody (O : Oracles) (prev : EngineFns)
    (hinfer : ∀ t a d, Pres (prev.infer t a d))
    (its : List Ty) (a : Ty) (d : Dir) :
    Pres (visitOvBody O prev its a d) := by
  unfold visitOvBody
  repeat
    first
    | exact pres_pure _
    | exact hinfer _ _ _
    | apply pres_forConcat
    | apply pres_bind
    | intro x
    | split

set_option maxRecDepth 8192 in
theorem pres_visitTTBody (O : Oracles) (prev : EngineFns)
    (hinfer : ∀ t a d, Pres (prev.infer t a d))
    (t a : Ty) (d : Dir) :
    Pres (visitTTBody O prev t a d) := by
  unfold visitTTBody
  repeat
    first
    | exact pres_pure _
    | exact pres_throwE _
    | exact hinfer _ _ _
    | apply pres_bind
    | intro x
    | split

theorem pres_againstAnyBody (O : Oracles) (prev : EngineFns)
    (hinfer : ∀ t a d, Pres (prev.infer t a d))
    (ts : List Ty) (a : Ty) (d : Dir) :
    Pres (againstAnyBody O prev ts a d) := by
  unfold againstAnyBody
  exact pres_forConcat (fun x => hinfer _ _ _)

set_option maxRecDepth 8192 in
theorem pres_visitBody (O : Oracles) (prev : EngineFns)
    (hvi : ∀ n args a d, Pres (prev.visitInst n args a d))
    (hvc : ∀ t a d, Pres (prev.visitCall t a d))
    (hvt : ∀ t a d, Pres (prev.visitTup t a d))
    (hvd : ∀ t a d, Pres (prev.visitTD t a d))
    (hvo : ∀ its a d, Pres (prev.visitOv its a d))
    (hvy : ∀ t a d, Pres (prev.visitTT t a d))
    (haa : ∀ ts a d, Pres (prev.againstAny ts a d))
    (t a : Ty) (d : Dir) :
    Pres (visitBody O prev t a d) := by
  unfold visitBody
  repeat
    first
    | exact pres_pure _
    | exact pres_throwE _
    | exact hvi _ _ _ _
    | exact hvc _ _ _
    | exact hvt _ _ _
    | exact hvd _ _ _
    | exact hvo _ _ _
    | exact hvy _ _ _
    | exact haa _ _ _
    | split

/-- Every procedure of an engine level preserves the guard state on
success. -/
structure PresE (E : EngineFns) : Prop where
  infer : ∀ t a d, Pres (E.infer t a d)
  inner : ∀ t a d, Pres (E.inner t a d)
  ifPossible : ∀ t a d, Pres (E.ifPossible t a d)
  recUnion : ∀ ts a d, Pres (E.recUnion ts a d)
  visit : ∀ t a d, Pres (E.visit t a d)
  visitInst : ∀ n args a d, Pres (E.visitInst n args a d)
  visitCall : ∀ t a d, Pres (E.visitCall t a d)
  visitTup : ∀ t a d, Pres (E.visitTup t a d)
  visitTD : ∀ t a d, Pres (E.visitTD t a d)
  visitOv : ∀ its a d, Pres (E.visitOv its a d)
  visitTT : ∀ t a d, Pres (E.visitTT t a d)
  proto : ∀ i t st p c d, Pres (E.proto i t st p c d)
  againstAny : ∀ ts a d, Pres (E.againstAny ts a d)

theorem presE_base : PresE baseEngine where
  infer := fun _ _ _ => pres_throwE _
  inner := fun _ _ _ => pres_throwE _
  ifPossible := fun _ _ _ => pres_throwE _
  recUnion := fun _ _ _ => pres_throwE _
  visit := fun _ _ _ => pres_throwE _
  visitInst := fun _ _ _ _ => pres_throwE _
  visitCall := fun _ _ _ => pres_throwE _
  visitTup := fun _ _ _ => pres_throwE _
  visitTD := fun _ _ _ => pres_throwE _
  visitOv := fun _ _ _ => pres_throwE _
  visitTT := fun _ _ _ => pres_throwE _
  proto := fun _ _ _ _ _ _ => pres_throwE _
  againstAny := fun _ _ _ => pres_throwE _

theorem presE_step (O : Oracles) (n : Nat) (prev : EngineFns) (h : PresE prev) :
    PresE (stepEngine O n prev) where
  infer := pres_inferBody O prev h.inner
  inner := pres_innerBody O (n + 1) prev h.infer h.ifPossible h.recUnion h.visit
  ifPossible := pres_ifPossibleBody O prev h.infer
  recUnion := pres_recUnionBody O prev h.infer
  visit := pres_visitBody O prev h.visitInst h.visitCall h.visitTup h.visitTD
    h.visitOv h.visitTT h.againstAny
  visitInst := pres_visitInstBody O prev h.infer h.againstAny h.proto
  visitCall := pres_visitCallBody O prev h.infer h.againstAny
  visitTup := pres_visitTupBody O prev h.infer h.againstAny
  visitTD := pres_visitTDBody O prev h.infer h.againstAny
  visitOv := pres_visitOvBody O prev h.infer
  visitTT := pres_visitTTBody O prev h.infer
  proto := pres_protoBody O prev h.infer
  againstAny := pres_againstAnyBody O prev h.infer

theorem presE_engine (O : Oracles) : ∀ n, PresE (engine O n)
  | 0 => presE_base
  | n + 1 => presE_step O n (engine O n) (presE_engine O n)

/-! Claim theorems. -/

/-- C1 (counterexample): two constraints on the same variable whose
targets are both `Any` but whose directions differ are NOT equal under
`Constraint.__eq__` (`ceq`), although the separate comparator
`is_same_constraint` does ignore the direction for them: the claimed
direction exception is absent from `__eq__`/`__hash__`. -/
theorem c1_eq_counterexample :
    ceq (mkConstraint (.typeVar 0 [] (.anyT .special)) .sub (.anyT .special))
        (mkConstraint (.typeVar 0 [] (.anyT .special)) .super (.anyT .special)) = false ∧
    is_same_constraint defaultOracles
        (mkConstraint (.typeVar 0 [] (.anyT .special)) .sub (.anyT .special))
        (mkConstraint (.typeVar 0 [] (.anyT .special)) .super (.anyT .special)) = true := by
  exact ⟨rfl, rfl⟩

/-- C1 (amended): `Constraint.__eq__` (and the `__hash__` key) is purely
structural over `(type_var, op, target)` — equal constraints always have
equal directions, with no `Any` exception; the direction-ignoring
comparison for `Any`-targeted constraints lives in the separate function
`is_same_constraint` used by the combinator. -/
theorem c1_constraint_equality (O : Oracles) (c1 c2 : Constraint) :
    (ceq c1 c2 = true → c1.op = c2.op) ∧
    ((match getProper c1.target with | Ty.anyT _ => true | _ => false) = true →
     (match getProper c2.target with | Ty.anyT _ => true | _ => false) = true →
     c1.type_var = c2.type_var →
     O.is_same_type c1.target c2.target = true →
     is_same_constraint O c1 c2 = true) := by
  constructor
  · intro h
    unfold ceq at h
    simp only [Bool.and_eq_true, beq_iff_eq] at h
    exact h.1.2
  · intro h1 h2 h3 h4
    unfold is_same_constraint
    simp only [h1, h2, h3, h4, Bool.and_true, Bool.and_eq_true, Bool.or_true, beq_iff_eq]

/-- C1 (witness for the amended theorem). -/
theorem c1_constraint_equality_witness :
    is_same_constraint defaultOracles
      (mkConstraint (.typeVar 1 [] (.anyT .special)) .sub (.anyT .special))
      (mkConstraint (.typeVar 1 [] (.anyT .special)) .super (.anyT .special)) = true :=
  (c1_constraint_equality defaultOracles _ _).2 rfl rfl rfl rfl

/-- C5: combinator idempotence.  When the survivor selection yields a
non-empty list whose members are all `is_same_constraints`-equal to the
first one, `any_constraints` returns that first survivor unchanged; in
particular combining `[X, X, X]` eagerly returns `X` for non-empty `X`
(see the witness). -/
theorem c5_combinator_idempotence (O : Oracles) (fuel : Nat)
    (options : List (Option (List Constraint))) (eager : Bool)
    (v0 : List Constraint) (vs : List (List Constraint))
    (hv : validOptions options eager = v0 :: vs)
    (hsame : vs.all (fun c => is_same_constraints O v0 c) = true) :
    any_constraints O (fuel + 1) options eager = v0 := by
  unfold any_constraints
  rw [hv]
  cases vs with
  | nil => simp
  | cons w ws =>
    simp only [List.isEmpty_cons, Bool.false_eq_true, if_false]
    rw [hsame]
    simp

/-- C5 (witness): combining `[X, X, X]` eagerly returns `X`. -/
theorem c5_combinator_idempotence_witness :
    any_constraints defaultOracles 1
      [some [mkConstraint (.typeVar 0 [] (.anyT .special)) .sub .noneT],
       some [mkConstraint (.typeVar 0 [] (.anyT .special)) .sub .noneT],
       some [mkConstraint (.typeVar 0 [] (.anyT .special)) .sub .noneT]] true =
      [mkConstraint (.typeVar 0 [] (.anyT .special)) .sub .noneT] :=
  c5_combinator_idempotence defaultOracles 0 _ true _ _ rfl rfl

/-- C6: combinator fallback filtering.  When the earlier combination
steps fail (several distinct survivors, not all the same, and the
merge-with-`Any` retry not applicable), the combinator filters every
original option through `filter_satisfiable` and retries exactly when the
filtering changed some option, returning the empty list otherwise; and a
non-empty option whose every constraint is dropped by the upper-bound
filter becomes the unsatisfiable sentinel `none`. -/
theorem c6_combinator_fallback (O : Oracles) (fuel : Nat)
    (options : List (Option (List Constraint))) (eager : Bool)
    (v0 : List Constraint) (vs : List (List Constraint))
    (hv : validOptions options eager = v0 :: vs)
    (hvs : vs ≠ [])
    (hnotsame : vs.all (fun c => is_same_constraints O v0 c) = false)
    (hfall : vs.all (fun c => is_similar_constraints v0 c) = false ∨
      (!(select_trivial ((v0 :: vs).map some)).isEmpty &&
        (select_trivial ((v0 :: vs).map some)).length < (v0 :: vs).length) = false) :
    (any_constraints O (fuel + 1) options eager =
      (if optListCeq (options.map (filter_satisfiable O)) options then []
       else any_constraints O fuel (options.map (filter_satisfiable O)) eager)) ∧
    (∀ c cs,
      (c :: cs).filter (fun c2 => O.is_subtype c2.target c2.origin_type_var.upperBound) = [] →
      filter_satisfiable O (some (c :: cs)) = none) := by
  constructor
  · rw [any_constraints.eq_2, hv]
    cases vs with
    | nil => exact absurd rfl hvs
    | cons w ws =>
      simp only [List.isEmpty_cons, Bool.false_eq_true, if_false]
      rw [hnotsame]
      simp only [Bool.false_eq_true, if_false]
      rcases hfall with hsim | htriv
      · rw [hsim]
        simp only [Bool.false_eq_true, if_false]
      · rcases hsimall : (w :: ws).all (fun c => is_similar_constraints v0 c) with _ | _
        · simp only [Bool.false_eq_true, if_false]
        · simp only [if_true]
          rw [htriv]
          simp only [Bool.false_eq_true, if_false]
  · intro c cs hfilter
    unfold filter_satisfiable
    dsimp only
    rw [hfilter]
    rfl

/-- An oracle whose subtype check rejects `None` targets, used to exercise
the upper-bound filtering of the combinator. -/
def strictOracles : Oracles :=
  { defaultOracles with
    is_subtype := fun t _ => match t with | .noneT => false | _ => true }

/-- C6 (witness): with two genuinely different options, one of which is
emptied by the upper-bound filter, the combinator retries on the filtered
options and returns the surviving one. -/
theorem c6_combinator_fallback_witness :
    any_constraints strictOracles 2
      [some [mkConstraint (.typeVar 0 [] (.anyT .special)) .sub .noneT],
       some [mkConstraint (.typeVar 0 [] (.anyT .special)) .sub (.inst "x" [])]] false =
      [mkConstraint (.typeVar 0 [] (.anyT .special)) .sub (.inst "x" [])] := by
  have h := c6_combinator_fallback strictOracles 1
    [some [mkConstraint (.typeVar 0 [] (.anyT .special)) .sub .noneT],
     some [mkConstraint (.typeVar 0 [] (.anyT .special)) .sub (.inst "x" [])]] false
    [mkConstraint (.typeVar 0 [] (.anyT .special)) .sub .noneT]
    [[mkConstraint (.typeVar 0 [] (.anyT .special)) .sub (.inst "x" [])]]
    rfl (by simp) rfl (Or.inr rfl)
  rw [h.1]
  rfl

/-- C9: fatal caller-contract violations.  A bare type variable, a bare
union, a recursive type alias, or an unresolved partial placeholder
reaching the shape matcher raises `assert False`; a bare parameter list
matched against a non-`Any` actual raises `RuntimeError`.  In every case
the matcher aborts with an exception instead of returning a constraint
list. -/
theorem c9_matcher_fatal (O : Oracles) (n : Nat) (a : Ty) (d : Dir) (s : St)
    (hA : ∀ tag, a ≠ Ty.anyT tag) :
    (∀ id vals ub,
      (engine O (n + 1)).visit (.typeVar id vals ub) a d s = (.error .assertFail, s)) ∧
    (∀ items, (engine O (n + 1)).visit (.unionT items) a d s = (.error .assertFail, s)) ∧
    (∀ r t, (engine O (n + 1)).visit (.typeAlias r t) a d s = (.error .assertFail, s)) ∧
    ((engine O (n + 1)).visit .partialT a d s = (.error .assertFail, s)) ∧
    (∀ ats aks ans,
      (engine O (n + 1)).visit (.params ats aks ans) a d s = (.error .runtimeErr, s)) := by
  refine ⟨fun id vals ub => rfl, fun items => rfl, fun r t => rfl, rfl, fun ats aks ans => ?_⟩
  show visitBody O (engine O n) (.params ats aks ans) a d s = (.error .runtimeErr, s)
  unfold visitBody
  cases a with
  | anyT tg => exact absurd rfl (hA tg)
  | _ => rfl

/-- C9 (witness). -/
theorem c9_matcher_fatal_witness :
    (engine defaultOracles 1).visit (.params [] [] []) .noneT .sub St.empty =
      (.error .runtimeErr, St.empty) :=
  (c9_matcher_fatal defaultOracles 0 .noneT .sub St.empty
    (fun _ h => Ty.noConfusion h)).2.2.2.2 [] [] []

theorem M.run_getS_bind {α : Type} (k : St → M α) (s : St) :
    (M.getS >>= k) s = k s s := rfl

/-- C2 (amended): the bare-variable base case.  At a request boundary
(empty recursion guard), matching a bare type variable `T` against an
actual `X` yields exactly `[Constraint(T, D, X')]` where `X'` is `X`
normalized (proper form, unions simplified) — provided `X'` is not an
`Any` produced by the suggestion engine, which is filtered out first and
yields no constraint at all (see the counterexample). -/
theorem c2_typevar_base_case (O : Oracles) (n : Nat) (id : Nat) (vals : List Ty)
    (ub actual : Ty) (d : Dir) (s : St)
    (hs : s.inferring = [])
    (hrec : hasRecursiveTypes (.typeVar id vals ub) = false)
    (hsugg : isSuggestionAny (simplifyUnion O (getProper actual)) = false) :
    infer_constraints O (n + 2) (.typeVar id vals ub) actual d s =
      (.ok [mkConstraint (.typeVar id vals ub) d
        (simplifyUnion O (getProper actual))], s) := by
  show (stepEngine O (n + 1) (engine O (n + 1))).infer (.typeVar id vals ub) actual d s = _
  simp only [stepEngine]
  unfold inferBody
  rw [M.run_getS_bind, hs]
  simp only [List.any_nil, Bool.false_eq_true, if_false, hrec]
  show (stepEngine O n (engine O n)).inner (.typeVar id vals ub) actual d s = _
  simp only [stepEngine]
  unfold innerBody
  rw [hsugg]
  rfl

/-- C2 (counterexample): a suggestion-engine `Any` actual is filtered out
before the bare-variable base case, so `infer_constraints(T, X, D)` yields
`[]` rather than the claimed `[Constraint(T, D, X)]`. -/
theorem c2_typevar_counterexample :
    infer_constraints defaultOracles 2 (.typeVar 0 [] (.anyT .special))
      (.anyT .suggestionEngine) .super St.empty = (.ok [], St.empty) ∧
    ([] : List Constraint) ≠
      [mkConstraint (.typeVar 0 [] (.anyT .special)) .super (.anyT .suggestionEngine)] := by
  exact ⟨rfl, by simp⟩

/-- C2 (witness for the amended theorem). -/
theorem c2_typevar_base_case_witness :
    infer_constraints defaultOracles 2 (.typeVar 0 [] (.anyT .special)) .noneT .super
      St.empty =
      (.ok [mkConstraint (.typeVar 0 [] (.anyT .special)) .super .noneT], St.empty) :=
  c2_typevar_base_case defaultOracles 0 0 [] (.anyT .special) .noneT .super St.empty
    rfl rfl rfl

/-- C4 (amended): both guard stacks (the `TypeState.inferring` recursion
guard and the per-protocol `inferring` stacks) are exactly restored on
every successful exit of a top-level `infer_constraints` request,
including all early returns.  (On an exceptional abort the pops are
skipped — the source has no `try/finally` — see the counterexample.) -/
theorem c4_guard_balance (O : Oracles) (fuel : Nat) (t a : Ty) (d : Dir)
    (s : St) (r : List Constraint) (s2 : St)
    (h : infer_constraints O fuel t a d s = (.ok r, s2)) : s2 = s :=
  ((presE_engine O fuel).infer t a d).run s r s2 h

/-- C4 (witness). -/
theorem c4_guard_balance_witness :
    infer_constraints defaultOracles 2 (.typeVar 0 [] (.anyT .special)) .noneT .super
      St.empty =
      (.ok [mkConstraint (.typeVar 0 [] (.anyT .special)) .super .noneT], St.empty) ∧
    St.empty = St.empty := by
  refine ⟨rfl, ?_⟩
  exact c4_guard_balance defaultOracles 2 (.typeVar 0 [] (.anyT .special)) .noneT .super
    St.empty [mkConstraint (.typeVar 0 [] (.anyT .special)) .super .noneT] St.empty rfl

/-- C4 (counterexample): an aborting exit is NOT balanced.  A recursive
template containing a variable-arity leaf pushes the recursion-guard
entry, then the matcher raises `NotImplementedError`; the pop is skipped
and the guard entry survives the exit, so the stacks are not restored on
every error/abort exit as claimed. -/
theorem c4_guard_balance_counterexample :
    infer_constraints defaultOracles 3
      (.typeAlias true (.unpack (.typeVarTuple 0 (.anyT .special)))) .noneT .super
      St.empty =
      (.error .notImplemented,
        { inferring := [(.typeAlias true (.unpack (.typeVarTuple 0 (.anyT .special))), .noneT)],
          protoInferring := [] }) ∧
    ({ inferring := [(.typeAlias true (.unpack (.typeVarTuple 0 (.anyT .special))), .noneT)],
       protoInferring := [] } : St) ≠ St.empty := by
  constructor
  · rfl
  · intro h
    have h2 := congrArg St.inferring h
    simp [St.empty] at h2

/-- Inversion of a successful bind. -/
theorem run_ok_bind {α β : Type} {x : M α} {f : α → M β} {s s2 : St} {r : β}
    (h : (x >>= f) s = (.ok r, s2)) :
    ∃ a s1, x s = (.ok a, s1) ∧ f a s1 = (.ok r, s2) := by
  rw [M.run_bind] at h
  rcases hx : x s with ⟨e1, s1⟩
  rw [hx] at h
  cases e1 with
  | ok a => exact ⟨a, s1, rfl, h⟩
  | error e => exact absurd (congrArg Prod.fst h) (by simp)

theorem run_ok_pure {α : Type} {a r : α} {s s2 : St}
    (h : (pure a : M α) s = (.ok r, s2)) : r = a ∧ s2 = s := by
  rw [M.run_pure] at h
  injection h with h1 h2
  injection h1 with h3
  exact ⟨h3.symm, h2.symm⟩

/-- If some protocol member's lookup fails on either side, a successful
run of the member loop yields the `none` marker (the Python `return []`),
never a partial accumulation. -/
theorem protoLoop_fail (O : Oracles) (prev : EngineFns)
    (instTy template subtype protocol : Ty) (classObj : Bool) (d : Dir)
    (members : List String)
    (hfail : ∃ m ∈ members,
      O.find_member m instTy subtype false classObj = none ∨
      O.find_member m template subtype false false = none) :
    ∀ s r s2,
      protoLoop O prev instTy template subtype protocol classObj d members s =
        (.ok r, s2) → r = none := by
  induction members with
  | nil =>
    rcases hfail with ⟨m, hm, _⟩
    cases hm
  | cons m rest ih =>
    intro s r s2 h
    unfold protoLoop at h
    rcases hi : O.find_member m instTy subtype false classObj with _ | i <;>
      rcases ht : O.find_member m template subtype false false with _ | temp <;>
      rw [hi, ht] at h <;> dsimp only at h
    · exact (run_ok_pure h).1
    · exact (run_ok_pure h).1
    · exact (run_ok_pure h).1
    · obtain ⟨a1, s1, hx1, h⟩ := run_ok_bind h
      obtain ⟨a2, s2h, hx2, h⟩ := run_ok_bind h
      obtain ⟨o, s3, hx3, h⟩ := run_ok_bind h
      have hr := (run_ok_pure h).1
      rcases hfail with ⟨m2, hm2, hor⟩
      rcases List.mem_cons.mp hm2 with heq | hmem
      · subst heq
        rcases hor with h1 | h2
        · rw [hi] at h1; cases h1
        · rw [ht] at h2; cases h2
      · have ho := ih ⟨m2, hmem, hor⟩ s2h o s3 hx3
        rw [ho] at hr
        simpa using hr

/-- C8: protocol structural matching is all-or-nothing.  A successful
protocol-matching attempt with any failing member lookup yields the empty
list (never a partial one); when a member's lookups succeed on both
sides, the loop contributes that member's constraints in the request
direction, plus the opposite-direction constraints when the member is
settable, before the remaining members. -/
theorem c8_protocol_all_or_nothing (O : Oracles) (n : Nat)
    (instTy template subtype : Ty) (pname : String) (pargs : List Ty)
    (classObj : Bool) (d : Dir) :
    ((∃ m ∈ (O.classInfo pname).protocolMembers,
        O.find_member m instTy subtype false classObj = none ∨
        O.find_member m template subtype false false = none) →
      ∀ s r s2,
        (engine O (n + 1)).proto instTy template subtype (.inst pname pargs) classObj d s =
          (.ok r, s2) → r = []) ∧
    (∀ m rest i temp,
      O.find_member m instTy subtype false classObj = some i →
      O.find_member m template subtype false false = some temp →
      protoLoop O (engine O n) instTy template subtype (.inst pname pargs) classObj d
        (m :: rest) =
        (do
          let r1 ← (engine O n).infer temp i d
          let r2 ← (if O.member_settable m (.inst pname pargs) then
                     (engine O n).infer temp i (neg_op d)
                   else pure [])
          let orest ← protoLoop O (engine O n) instTy template subtype (.inst pname pargs)
            classObj d rest
          pure (orest.map (fun rr => r1 ++ r2 ++ rr)))) := by
  constructor
  · intro hfail s r s2 h
    have h2 : protoBody O (engine O n) instTy template subtype (.inst pname pargs)
        classObj d s = (.ok r, s2) := h
    unfold protoBody at h2
    dsimp only at h2
    obtain ⟨o, s3, hx, h3⟩ := run_ok_bind h2
    have ho := protoLoop_fail O (engine O n) instTy template subtype (.inst pname pargs)
      classObj d _ hfail s o s3 hx
    have hr := (run_ok_pure h3).1
    rw [ho] at hr
    simpa using hr
  · intro m rest i temp h1 h2
    conv_lhs => rw [protoLoop]
    rw [h1, h2]

/-- An oracle with a one-member protocol whose member lookups fail, used
to exercise the all-or-nothing abort of the protocol matcher. -/
def protoOracles : Oracles :=
  { defaultOracles with classInfo := fun _ => { protocolMembers := ["m"] } }

/-- C8 (witness): a failing member lookup makes the whole attempt yield
the empty list. -/
theorem c8_protocol_all_or_nothing_witness :
    (engine protoOracles 1).proto .noneT .noneT .noneT (.inst "P" []) false .sub
      St.empty = (.ok [], St.empty) ∧ ([] : List Constraint) = [] :=
  ⟨rfl,
   (c8_protocol_all_or_nothing protoOracles 0 .noneT .noneT .noneT "P" [] false .sub).1
     ⟨"m", List.mem_singleton.mpr rfl, Or.inl rfl⟩ St.empty [] St.empty rfl⟩

theorem M.pure_bind {α β : Type} (a : α) (f : α → M β) : (pure a >>= f) = f a := rfl

theorem iccActuals_filter {σ : Type} (O : Oracles) (n : Nat)
    (expand : σ → Ty → ArgKind → Option String → ArgKind → Ty × σ)
    (argTypes : List (Option Ty)) (argKinds : List ArgKind)
    (cT : List Ty) (cK : List ArgKind) (cN : List (Option String)) (i : Nat) :
    ∀ (js : List Nat) (e : σ),
      iccActuals O n expand argTypes argKinds cT cK cN i e js =
      iccActuals O n expand argTypes argKinds cT cK cN i e
        (js.filter (fun j => match argTypes.get? j with
          | some none => false
          | _ => true)) := by
  intro js
  induction js with
  | nil => intro e; rfl
  | cons j js ih =>
    intro e
    rcases hj : argTypes.get? j with _ | oj
    · simp only [List.filter_cons, hj]
      simp only [if_true]
      conv_lhs => rw [iccActuals]
      conv_rhs => rw [iccActuals]
      rw [hj]
    · cases oj with
      | none =>
        simp only [List.filter_cons, hj]
        simp only [Bool.false_eq_true, if_false]
        conv_lhs => rw [iccActuals]
        rw [hj]
        exact ih e
      | some ty =>
        simp only [List.filter_cons, hj]
        simp only [if_true]
        conv_lhs => rw [iccActuals]
        conv_rhs => rw [iccActuals]
        rw [hj]
        dsimp only
        simp only [ih]

theorem iccFormals_filter {σ : Type} (O : Oracles) (n : Nat)
    (expand : σ → Ty → ArgKind → Option String → ArgKind → Ty × σ)
    (argTypes : List (Option Ty)) (argKinds : List ArgKind)
    (cT : List Ty) (cK : List ArgKind) (cN : List (Option String)) :
    ∀ (f2a : List (List Nat)) (e : σ) (i : Nat),
      iccFormals O n expand argTypes argKinds cT cK cN e i f2a =
      iccFormals O n expand argTypes argKinds cT cK cN e i
        (f2a.map (List.filter (fun j => match argTypes.get? j with
          | some none => false
          | _ => true))) := by
  intro f2a
  induction f2a with
  | nil => intro e i; rfl
  | cons l tl ih =>
    intro e i
    rw [List.map_cons]
    conv_lhs => rw [iccFormals]
    conv_rhs => rw [iccFormals]
    rw [← iccActuals_filter]
    simp only [ih]

theorem iccActuals_all_none {σ : Type} (O : Oracles) (n : Nat)
    (expand : σ → Ty → ArgKind → Option String → ArgKind → Ty × σ)
    (argTypes : List (Option Ty)) (argKinds : List ArgKind)
    (cT : List Ty) (cK : List ArgKind) (cN : List (Option String)) (i : Nat) :
    ∀ (js : List Nat) (e : σ), (∀ j ∈ js, argTypes.get? j = some none) →
      iccActuals O n expand argTypes argKinds cT cK cN i e js = pure ([], e) := by
  intro js
  induction js with
  | nil => intro e _; rfl
  | cons j js ih =>
    intro e hall
    conv_lhs => rw [iccActuals]
    rw [hall j (List.mem_cons_self j js)]
    exact ih e (fun j2 hj2 => hall j2 (List.mem_cons_of_mem j hj2))

theorem iccFormals_all_none {σ : Type} (O : Oracles) (n : Nat)
    (expand : σ → Ty → ArgKind → Option String → ArgKind → Ty × σ)
    (argTypes : List (Option Ty)) (argKinds : List ArgKind)
    (cT : List Ty) (cK : List ArgKind) (cN : List (Option String)) :
    ∀ (f2a : List (List Nat)) (e : σ) (i : Nat),
      (∀ l ∈ f2a, ∀ j ∈ l, argTypes.get? j = some none) →
      iccFormals O n expand argTypes argKinds cT cK cN e i f2a = pure [] := by
  intro f2a
  induction f2a with
  | nil => intro e i _; rfl
  | cons l tl ih =>
    intro e i hall
    conv_lhs => rw [iccFormals]
    rw [iccActuals_all_none O n expand argTypes argKinds cT cK cN i l e
      (hall l (List.mem_cons_self l tl)), M.pure_bind]
    dsimp only
    rw [ih e (i + 1) (fun l2 hl2 => hall l2 (List.mem_cons_of_mem l hl2)), M.pure_bind]
    rfl

/-- C10: `infer_constraints_for_callable` ignores actual arguments whose
recorded type is `None`: removing from every formal's actual list the
positions whose `arg_types` entry is `None` leaves the result unchanged
(whatever the callee, argument kinds, mapping, and expander behaviour),
and if every mapped actual argument's type is `None` the result is the
empty constraint list with untouched state. -/
theorem c10_none_actuals_ignored {σ : Type} (O : Oracles) (n : Nat)
    (expand : σ → Ty → ArgKind → Option String → ArgKind → Ty × σ) (e0 : σ)
    (cT : List Ty) (cK : List ArgKind) (cN : List (Option String))
    (ret : Ty) (ell obj fc : Bool) (tg : Option Ty) (fb : Ty)
    (argTypes : List (Option Ty)) (argKinds : List ArgKind)
    (f2a : List (List Nat)) :
    (infer_constraints_for_callable O n expand e0
        (.callable cT cK cN ret ell obj fc tg fb) argTypes argKinds f2a =
      infer_constraints_for_callable O n expand e0
        (.callable cT cK cN ret ell obj fc tg fb) argTypes argKinds
        (f2a.map (List.filter (fun j => match argTypes.get? j with
          | some none => false
          | _ => true)))) ∧
    ((∀ l ∈ f2a, ∀ j ∈ l, argTypes.get? j = some none) →
      infer_constraints_for_callable O n expand e0
        (.callable cT cK cN ret ell obj fc tg fb) argTypes argKinds f2a =
      (pure [] : M (List Constraint))) := by
  constructor
  · exact iccFormals_filter O n expand argTypes argKinds cT cK cN f2a e0 0
  · intro hall
    exact iccFormals_all_none O n expand argTypes argKinds cT cK cN f2a e0 0 hall

/-- C10 (witness). -/
theorem c10_none_actuals_ignored_witness :
    infer_constraints_for_callable defaultOracles 1
      (fun (e : Unit) t _ _ _ => (t, e)) ()
      (.callable [.noneT] [.pos] [none] .noneT false false false none .noneT)
      [none] [.pos] [[0]] =
    (pure [] : M (List Constraint)) :=
  (c10_none_actuals_ignored defaultOracles 1 (fun (e : Unit) t _ _ _ => (t, e)) ()
    [.noneT] [.pos] [none] .noneT false false false none .noneT [none] [.pos] [[0]]).2
    (by intro l hl j hjl
        rcases List.mem_singleton.mp hl with rfl
        rcases List.mem_singleton.mp hjl with rfl
        rfl)

/-- C7: callable-vs-callable matching.  In general, when the template
callable has no parameter-specification tail and is not `...`, every
aligned parameter pair is recursed with the direction negated and the
return types are recursed in the original direction; in particular
(second conjunct) template `Callable[[T], S]` against actual
`Callable[[int], str]` in direction SUPERTYPE_OF yields exactly
`[T <: int, S :> str]`. -/
theorem c7_callable_matching :
    (∀ (O : Oracles) (n : Nat) (t actual : Ty) (d : Dir)
       (tArgTypes : List Ty) (tArgKinds : List ArgKind) (tArgNames : List (Option String))
       (tRet : Ty) (tObj tFC : Bool) (tFB : Ty)
       (aArgTypes : List Ty) (aArgKinds : List ArgKind) (aArgNames : List (Option String))
       (aRet : Ty) (aEll aObj aFC : Bool) (aFB : Ty),
       (∃ xT xK xN xR xE xO xC xG xF, actual = Ty.callable xT xK xN xR xE xO xC xG xF) →
       O.with_unpacked_kwargs t =
         .callable tArgTypes tArgKinds tArgNames tRet false tObj tFC none tFB →
       O.with_unpacked_kwargs actual =
         .callable aArgTypes aArgKinds aArgNames aRet aEll aObj aFC none aFB →
       paramSpecOf (.callable tArgTypes tArgKinds tArgNames tRet false tObj tFC none tFB) =
         none →
       (engine O (n + 1)).visitCall t actual d =
         (do
           let r1 ← forConcat (tArgTypes.zip aArgTypes)
             (fun p => (engine O n).infer p.1 p.2 (neg_op d))
           let r3 ← (engine O n).infer tRet aRet d
           pure (r1 ++ r3))) ∧
    (infer_constraints defaultOracles 8
      (.callable [.typeVar 0 [] (.anyT .special)] [.pos] [none]
        (.typeVar 1 [] (.anyT .special)) false false false none .noneT)
      (.callable [.inst "builtins.int" []] [.pos] [none]
        (.inst "builtins.str" []) false false false none .noneT)
      .super St.empty =
      (.ok [mkConstraint (.typeVar 0 [] (.anyT .special)) .sub (.inst "builtins.int" []),
            mkConstraint (.typeVar 1 [] (.anyT .special)) .super (.inst "builtins.str" [])],
       St.empty)) := by
  constructor
  · intro O n t actual d tArgTypes tArgKinds tArgNames tRet tObj tFC tFB
      aArgTypes aArgKinds aArgNames aRet aEll aObj aFC aFB hact ht ha hps
    obtain ⟨xT, xK, xN, xR, xE, xO, xC, xG, xF, rfl⟩ := hact
    show visitCallBody O (engine O n) t (Ty.callable xT xK xN xR xE xO xC xG xF) d = _
    unfold visitCallBody
    rw [ht]
    dsimp only
    rw [ha, hps]
    dsimp only
    simp only [Bool.not_false, if_true]
  · rfl

/-- C7 (witness for the general part). -/
theorem c7_callable_matching_witness :
    (engine defaultOracles 4).visitCall
      (.callable [.typeVar 0 [] (.anyT .special)] [.pos] [none]
        (.typeVar 1 [] (.anyT .special)) false false false none .noneT)
      (.callable [.inst "builtins.int" []] [.pos] [none]
        (.inst "builtins.str" []) false false false none .noneT) .super =
    (do
      let r1 ← forConcat
        (([Ty.typeVar 0 [] (.anyT .special)]).zip [Ty.inst "builtins.int" []])
        (fun p => (engine defaultOracles 3).infer p.1 p.2 (neg_op .super))
      let r3 ← (engine defaultOracles 3).infer (.typeVar 1 [] (.anyT .special))
        (.inst "builtins.str" []) .super
      pure (r1 ++ r3)) :=
  c7_callable_matching.1 defaultOracles 3
    (.callable [.typeVar 0 [] (.anyT .special)] [.pos] [none]
      (.typeVar 1 [] (.anyT .special)) false false false none .noneT)
    (.callable [.inst "builtins.int" []] [.pos] [none]
      (.inst "builtins.str" []) false false false none .noneT) .super
    [.typeVar 0 [] (.anyT .special)] [.pos] [none] (.typeVar 1 [] (.anyT .special))
    false false .noneT
    [.inst "builtins.int" []] [.pos] [none] (.inst "builtins.str" []) false false false
    .noneT
    ⟨_, _, _, _, _, _, _, _, _, rfl⟩ rfl rfl rfl

theorem forConcat_pair {α : Type} (f : α → M (List Constraint)) (x y : α) :
    forConcat [x, y] f =
      (do
        let a ← f x
        let b ← f y
        pure (a ++ b)) := by
  funext s
  simp only [forConcat, M.run_bind, M.run_pure]
  rcases h1 : f x s with ⟨e1, s1⟩
  cases e1 with
  | error e => rfl
  | ok a =>
    dsimp only
    rcases h2 : f y s1 with ⟨e2, s2⟩
    cases e2 with
    | error e => rfl
    | ok b => simp

theorem getProper_unionT (items : List Ty) : getProper (.unionT items) = .unionT items := rfl

theorem simplifyUnion_unionT (O : Oracles) (items : List Ty) :
    simplifyUnion O (.unionT items) = O.make_simplified_union items := rfl

/-- C3: AND-union distribution.  For a union template under SUBTYPE_OF
(first conjunct) and symmetrically a union actual under SUPERTYPE_OF
(second conjunct), with the template not a bare variable, the result is
the concatenation, in item order, of inferring each union item against
the other side at the same recursion depth. -/
theorem c3_and_union_distribution (O : Oracles) (n : Nat) (A B X : Ty) (s : St)
    (hs : s.inferring = [])
    (hrecT : hasRecursiveTypes (.unionT [A, B]) = false)
    (hXrec : hasRecursiveTypes X = false)
    (hsimp : O.make_simplified_union [A, B] = .unionT [A, B])
    (hXnorm : simplifyUnion O (getProper X) = X)
    (hXsugg : isSuggestionAny X = false)
    (hXtv : isBareTypeVar X = false) :
    (infer_constraints O (n + 2) (.unionT [A, B]) X .sub s =
      (do
        let r1 ← infer_constraints O n A X .sub
        let r2 ← infer_constraints O n B X .sub
        pure (r1 ++ r2)) s) ∧
    (infer_constraints O (n + 2) X (.unionT [A, B]) .super s =
      (do
        let r1 ← infer_constraints O n X A .super
        let r2 ← infer_constraints O n X B .super
        pure (r1 ++ r2)) s) := by
  constructor
  · show (stepEngine O (n + 1) (engine O (n + 1))).infer (.unionT [A, B]) X .sub s = _
    simp only [stepEngine]
    unfold inferBody
    rw [M.run_getS_bind, hs]
    simp only [List.any_nil, Bool.false_eq_true, if_false, hrecT]
    show (stepEngine O n (engine O n)).inner (.unionT [A, B]) X .sub s = _
    simp only [stepEngine]
    unfold innerBody
    rw [getProper_unionT, simplifyUnion_unionT, hsimp, hXnorm, hXsugg]
    show (forConcat [A, B] (fun ti => (engine O n).infer ti X Dir.sub)) s = _
    rw [forConcat_pair]
    rfl
  · show (stepEngine O (n + 1) (engine O (n + 1))).infer X (.unionT [A, B]) .super s = _
    simp only [stepEngine]
    unfold inferBody
    rw [M.run_getS_bind, hs]
    simp only [List.any_nil, Bool.false_eq_true, if_false, hXrec]
    show (stepEngine O n (engine O n)).inner X (.unionT [A, B]) .super s = _
    simp only [stepEngine]
    unfold innerBody
    rw [getProper_unionT, simplifyUnion_unionT, hsimp, hXnorm, hXtv]
    show (forConcat [A, B] (fun ai => (engine O n).infer X ai Dir.super)) s = _
    rw [forConcat_pair]
    rfl

/-- C3 (witness). -/
theorem c3_and_union_distribution_witness :
    (infer_constraints defaultOracles 5 (.unionT [.noneT, .uninhabited])
        (.inst "builtins.int" []) .sub St.empty =
      (do
        let r1 ← infer_constraints defaultOracles 3 .noneT (.inst "builtins.int" []) .sub
        let r2 ← infer_constraints defaultOracles 3 .uninhabited
          (.inst "builtins.int" []) .sub
        pure (r1 ++ r2)) St.empty) ∧
    (infer_constraints defaultOracles 5 (.inst "builtins.int" [])
        (.unionT [.noneT, .uninhabited]) .super St.empty =
      (do
        let r1 ← infer_constraints defaultOracles 3 (.inst "builtins.int" []) .noneT .super
        let r2 ← infer_constraints defaultOracles 3 (.inst "builtins.int" [])
          .uninhabited .super
        pure (r1 ++ r2)) St.empty) :=
  c3_and_union_distribution defaultOracles 3 .noneT .uninhabited (.inst "builtins.int" [])
    St.empty rfl rfl rfl rfl rfl rfl rfl
